import Mathlib

/-!
Verification of the noisegen noise-generation core.

This file gives a shallow embedding, in Lean 4, of the JavaScript source of
the noisegen repository (scripts noise.js, noise_multithreaded.js, surface.js,
ui_multirange.js) and proves or refutes the frozen specification claims about
it.

Conventions of the embedding:

* JavaScript numbers are modelled as exact rationals.  The handful of places
  where 64-bit floating point rounding could differ from exact rational
  arithmetic (products of two 32-bit integers inside the Perlin hash, the
  golden-ratio constant of the CMWC seeding) are noted next to the
  definitions; no claim settled here depends on that difference.
* The special values Infinity and NaN, which normalizeData can actually
  produce, are modelled explicitly by the JSNum type used for that function,
  and by Option (with none standing for Infinity) in the Worley
  nearest-distance lists.
* 32-bit integer coercions (the x|0, x>>>0, bitwise and shift operators of
  JavaScript) are modelled on Nat and Int with explicit reduction modulo
  2^32; unsigned words are kept as their bit patterns in Nat.
* The transcendental library functions Math.sqrt, Math.log, Math.cos and
  Math.sin reached by the Worley algorithm are abstracted as an arbitrary
  function bundle (MathFns); the determinism results proved about Worley
  hold for every instantiation of the bundle.
* Event loops of the worker protocol are modelled by folding the completion
  handler over an explicit list of completion messages; unbounded while
  loops are modelled with explicit fuel returning Option.
-/

namespace Noisegen

/-! ### JavaScript number coercions (noise.js, math utilities section) -/

/-- ToUint32 of an integer: reduce modulo 2^32 into the range 0 .. 2^32-1. -/
def toUint32 (z : ℤ) : ℕ :=
  (z % 4294967296).toNat

/-- ToInt32 of an integer: reduce modulo 2^32 into the signed range. -/
def toInt32 (z : ℤ) : ℤ :=
  let n := z % 4294967296
  if n < 2147483648 then n else n - 4294967296

/-- Truncation of a rational toward zero, the first step of the ToInt32 and
ToUint32 abstract operations of JavaScript. -/
def jsTrunc (q : ℚ) : ℤ :=
  Int.tdiv q.num q.den

/-- Embedding of the source function uint32(x), which is x >>> 0. -/
def uint32 (q : ℚ) : ℕ :=
  toUint32 (jsTrunc q)

/-- Embedding of the source function int32(x), which is x | 0. -/
def int32 (q : ℚ) : ℤ :=
  toInt32 (jsTrunc q)

/-- Embedding of the source function mod(n, m), the true modulus. -/
def jsMod (n m : ℤ) : ℤ :=
  ((n % m) + m) % m

/-- Embedding of the source function clamp(value, min, max). -/
def clamp (value mn mx : ℚ) : ℚ :=
  min (max value mn) mx

/-- Embedding of the source function interpolateLinear(from, to, frac). -/
def interpolateLinear (f t frac : ℚ) : ℚ :=
  let clamped := clamp frac 0 1
  f * (1 - clamped) + t * clamped

/-- Embedding of the source function dot2(a, b): only the first two
components of a gradient row are read. -/
def dot2 (a : ℤ × ℤ × ℤ) (b : ℚ × ℚ) : ℚ :=
  (a.1 : ℚ) * b.1 + (a.2.1 : ℚ) * b.2

/-- Embedding of the source function cantorPair(x, y). -/
def cantorPair (x y : ℚ) : ℚ :=
  ((x + y) * (x + y + 1)) * (1/2) + y

/-! ### Bitwise operators on 32-bit words

JavaScript bitwise operators convert both operands with ToInt32, operate on
the 32-bit two's complement patterns and return a signed 32-bit result.  Two
equivalent views are used: an unsigned view on Nat (words kept as their bit
patterns, as the PRNG states are) and a signed view on Int (as the Perlin
hash keeps its intermediate values). -/

/-- Unsigned view of the JavaScript xor operator. -/
def u32xor (a b : ℕ) : ℕ :=
  (a % 4294967296) ^^^ (b % 4294967296)

/-- Unsigned view of the JavaScript bitwise and operator. -/
def u32and (a b : ℕ) : ℕ :=
  (a % 4294967296) &&& (b % 4294967296)

/-- Unsigned view of the JavaScript left shift operator. -/
def u32shl (a : ℕ) (k : ℕ) : ℕ :=
  ((a % 4294967296) * 2 ^ k) % 4294967296

/-- Unsigned view of the JavaScript signed (sign propagating) right shift
operator: the word is reinterpreted as a signed 32-bit integer, shifted
arithmetically (floor division by 2^k), and the bit pattern of the result is
returned. -/
def u32sar (a : ℕ) (k : ℕ) : ℕ :=
  toUint32 (Int.fdiv (toInt32 (a : ℤ)) (2 ^ k))

/-- Unsigned view of the JavaScript unsigned (logical) right shift
operator. -/
def u32shr (a : ℕ) (k : ℕ) : ℕ :=
  (a % 4294967296) / 2 ^ k

/-- Signed view of the JavaScript xor operator. -/
def jsXor (a b : ℤ) : ℤ :=
  toInt32 (((a % 4294967296).toNat ^^^ (b % 4294967296).toNat : ℕ) : ℤ)

/-- Signed view of the JavaScript bitwise and operator. -/
def jsAnd (a b : ℤ) : ℤ :=
  toInt32 (((a % 4294967296).toNat &&& (b % 4294967296).toNat : ℕ) : ℤ)

/-- Signed view of the JavaScript left shift operator. -/
def jsShl (a : ℤ) (k : ℕ) : ℤ :=
  toInt32 (toInt32 a * 2 ^ k)

/-! ### PRNG library (noise.js, Random classes)

Each generator is a structure holding the fields of the corresponding
JavaScript class; nextUnbound returns the produced word together with the
mutated generator.  State words are stored as unsigned 32-bit patterns,
which is observationally equivalent to the occasionally negative signed
values the JavaScript arrays hold, because every later use of a state word
passes through a ToInt32 or ToUint32 coercion. -/

/-- Static constant Random.max of the source. -/
def Random.max : ℚ := 4294967296

/-- Static constant Random.maxRecip of the source, defined there as
1.0 / (Random.max + 1.0), hence the reciprocal of 2^32 + 1. -/
def Random.maxRecip : ℚ := 1 / (Random.max + 1)

/-- Static constant Random.phi of the source.  The decimal literal is read
exactly; the IEEE double it denotes differs from this rational by less than
2^-52, which no claim settled here depends on. -/
def Random.phi : ℚ := 1618033988749895 / 1000000000000000

/-- Method next(min, max) of the Random base class, as a function of the
word returned by the nextUnbound call it performs. -/
def Random.next (value : ℕ) (mn mx : ℚ) : ℚ :=
  mn + (uint32 (((value : ℚ) * Random.maxRecip) * (mx - mn)) : ℚ)

/-- Method nextf() of the Random base class, as a function of the word
returned by the nextUnbound call it performs. -/
def Random.nextf (value : ℕ) : ℚ :=
  (value : ℚ) * Random.maxRecip

/-- State of the RandomXorShift32 class. -/
structure RandomXorShift32 where
  seed : ℕ
  state : ℕ
deriving DecidableEq

/-- Constructor of RandomXorShift32. -/
def RandomXorShift32.new : RandomXorShift32 :=
  { seed := 0, state := 0 }

/-- Method setSeed(value) of RandomXorShift32: stores uint32(value) in both
the seed field (through the base class) and the state word. -/
def RandomXorShift32.setSeed (r : RandomXorShift32) (value : ℚ) : RandomXorShift32 :=
  let s := uint32 value
  { r with seed := s, state := s }

/-- Method nextUnbound() of RandomXorShift32.  The three uses of the
JavaScript shift operators are faithful: the left shifts by 13 and 5 are
plain left shifts, the right shift by 17 is the signed (sign propagating)
operator applied to the masked word. -/
def RandomXorShift32.nextUnbound (r : RandomXorShift32) : ℕ × RandomXorShift32 :=
  let x0 := r.state
  let x1 := u32xor x0 (u32shl x0 13)
  let x2 := u32xor x1 (u32sar x1 17)
  let x3 := u32xor x2 (u32shl x2 5)
  (x3, { r with state := x3 })

/-- State of the RandomXorShift128 class; the four array slots are the four
fields s0 .. s3. -/
structure RandomXorShift128 where
  seed : ℕ
  s0 : ℕ
  s1 : ℕ
  s2 : ℕ
  s3 : ℕ
deriving DecidableEq

/-- Constructor of RandomXorShift128 (stateShift is the constant array
0, 239006280, 397831840, 88675123 used by setSeed). -/
def RandomXorShift128.new : RandomXorShift128 :=
  { seed := 0, s0 := 0, s1 := 0, s2 := 0, s3 := 0 }

/-- Method setSeed(value) of RandomXorShift128: every state slot is
overwritten with uint32(seed + stateShift[i]). -/
def RandomXorShift128.setSeed (r : RandomXorShift128) (value : ℚ) : RandomXorShift128 :=
  let s := uint32 value
  { r with
    seed := s
    s0 := (s + 0) % 4294967296
    s1 := (s + 239006280) % 4294967296
    s2 := (s + 397831840) % 4294967296
    s3 := (s + 88675123) % 4294967296 }

/-- Method nextUnbound() of RandomXorShift128.  Both right shifts (by 19 and
by 8) are the signed operator of the source. -/
def RandomXorShift128.nextUnbound (r : RandomXorShift128) : ℕ × RandomXorShift128 :=
  let temp := u32xor r.s0 (u32shl r.s0 11)
  let n3 := u32xor (u32xor r.s3 (u32sar r.s3 19)) (u32xor temp (u32sar temp 8))
  (n3, { r with s0 := r.s1, s1 := r.s2, s2 := r.s3, s3 := n3 })

/-- State of the RandomWELL512 class: sixteen state words, a circular index,
and an owned RandomXorShift128 used for seeding. -/
structure RandomWELL512 where
  seed : ℕ
  index : ℕ
  state : List ℕ
  xor : RandomXorShift128
deriving DecidableEq

/-- Constructor of RandomWELL512: index starts at 0, the sixteen state words
are uninitialized in the source (modelled as zeros; setSeed overwrites all
of them before any use). -/
def RandomWELL512.new : RandomWELL512 :=
  { seed := 0, index := 0, state := List.replicate 16 0, xor := RandomXorShift128.new }

/-- Helper running the owned XorShift128 sixteen times and collecting the
outputs, mirroring the seeding loop of RandomWELL512.setSeed. -/
def xorShift128Run : ℕ → RandomXorShift128 → List ℕ × RandomXorShift128
  | 0, r => ([], r)
  | n + 1, r =>
    let (w, r') := r.nextUnbound
    let (ws, r'') := xorShift128Run n r'
    (w :: ws, r'')

/-- Method setSeed(value) of RandomWELL512: reseeds the owned XorShift128
and overwrites the sixteen state words with its outputs.  The circular
index field is not written by this method, exactly as in the source. -/
def RandomWELL512.setSeed (r : RandomWELL512) (value : ℚ) : RandomWELL512 :=
  let s := uint32 value
  let (ws, x') := xorShift128Run 16 (r.xor.setSeed value)
  { r with seed := s, state := ws, xor := x' }

/-- Method nextUnbound() of RandomWELL512, following the source line by
line; state words are read and written through their list positions. -/
def RandomWELL512.nextUnbound (r : RandomWELL512) : ℕ × RandomWELL512 :=
  let a0 := r.state.getD r.index 0
  let c0 := r.state.getD ((r.index + 13) &&& 15) 0
  let b := u32xor (u32xor a0 c0) (u32xor (u32shl a0 16) (u32shl c0 15))
  let c1 := r.state.getD ((r.index + 9) &&& 15) 0
  let c2 := u32xor c1 (u32sar c1 11)
  let a1 := u32xor b c2
  let st1 := r.state.set r.index a1
  let d := u32xor a1 (u32and (u32shl a1 5) 3661901088)
  let idx := (r.index + 15) &&& 15
  let a2 := st1.getD idx 0
  let w := u32xor a2 (u32xor b (u32xor d (u32xor (u32shl a2 2) (u32xor (u32shl b 18) (u32shl c2 28)))))
  let st2 := st1.set idx w
  (w, { r with index := idx, state := st2 })

/-- State of the RandomCMWC131104 class: the 4096 entry q array (entries are
JavaScript numbers, not all integers: slots 1 and 2 receive non-integral
values from the golden ratio offsets), the carry c and the position i. -/
structure RandomCMWC131104 where
  seed : ℕ
  qarray : List ℚ
  c : ℚ
  i : ℕ

/-- Static constant RandomCMWC131104.qsize. -/
def RandomCMWC131104.qsize : ℕ := 4096

/-- Constructor of RandomCMWC131104: carry 362436, position qsize - 1, q
array uninitialized in the source (modelled as zeros; setSeed overwrites
every slot before any use). -/
def RandomCMWC131104.new : RandomCMWC131104 :=
  { seed := 0
    qarray := List.replicate RandomCMWC131104.qsize 0
    c := 362436
    i := RandomCMWC131104.qsize - 1 }

/-- Seeding fill of the q array: slots 0, 1, 2 from the seed and the golden
ratio, every further slot the xor chain q[i-3] ^ q[i-2] ^ phi ^ i of the
source, iterated up to the requested length. -/
def cmwcFill (s : ℚ) : ℕ → List ℚ
  | 0 => []
  | n + 1 =>
    let prev := cmwcFill s n
    let q :=
      if n = 0 then s
      else if n = 1 then s + Random.phi
      else if n = 2 then s + Random.phi + Random.phi
      else
        (jsXor (jsXor (jsXor (jsTrunc (prev.getD (n - 3) 0)) (jsTrunc (prev.getD (n - 2) 0))) (jsTrunc Random.phi)) (n : ℤ) : ℤ)
    prev ++ [q]

/-- Method setSeed(value) of RandomCMWC131104: overwrites the seed and every
slot of the q array.  Neither the carry c nor the position i is written by
this method, exactly as in the source. -/
def RandomCMWC131104.setSeed (r : RandomCMWC131104) (value : ℚ) : RandomCMWC131104 :=
  let s := uint32 value
  { r with seed := s, qarray := cmwcFill (s : ℚ) RandomCMWC131104.qsize }

/-- Method nextUnbound() of RandomCMWC131104.  The source expression
temp >> 32 shifts by 32, which JavaScript reduces to a shift by 0, so the
new carry is ToInt32(temp). -/
def RandomCMWC131104.nextUnbound (r : RandomCMWC131104) : ℕ × RandomCMWC131104 :=
  let i' := (r.i + 1) &&& 4095
  let temp : ℚ := 18782 * r.qarray.getD i' 0 + r.c
  let c' : ℚ := (int32 temp : ℤ)
  let w := uint32 (4294967294 - temp)
  (w, { r with qarray := r.qarray.set i' (w : ℚ), c := c', i := i' })

/-! ### NoisePerlin (noise.js) -/

/-- Parameters and seed of the NoisePerlin class (defaults from the
constructor). -/
structure NoisePerlin where
  octaves : ℕ := 6
  persistence : ℚ := 1/2
  scale : ℚ := 1/100
  seed : ℚ := 0

/-- Constant 0.00000000093132257 of the Perlin hash, read exactly as a
rational. -/
def perlinHashScale : ℚ := 93132257 / 100000000000000000

/-- Method getRandom(x, y) of NoisePerlin.  Every intermediate value is
passed through int32 as in the source.  The two products n * n and n * c
are exact here, where 64-bit floats would round values above 2^53; only
the evaluation of the hash at concrete points depends on this, and the low
31 bits remain a deterministic function of the inputs in both readings. -/
def NoisePerlin.getRandom (x y : ℚ) : ℚ :=
  let n0 : ℤ := int32 x + int32 y * 57
  let n : ℤ := jsXor (jsShl n0 13) n0
  let a := toInt32 (n * n)
  let b := toInt32 (a * 15731)
  let c := toInt32 (b + 789221)
  let d := toInt32 (n * c)
  let e := toInt32 (d + 1376312589)
  let f := toInt32 (jsAnd e 2147483647)
  1 - (f : ℚ) * perlinHashScale

/-- Method getSmoothNoise(x, y) of NoisePerlin: corners at weight 1/16,
sides at weight 1/8, center at weight 1/4. -/
def NoisePerlin.getSmoothNoise (x y : ℚ) : ℚ :=
  let corners := (NoisePerlin.getRandom (x - 1) (y - 1) +
                  NoisePerlin.getRandom (x + 1) (y - 1) +
                  NoisePerlin.getRandom (x - 1) (y + 1) +
                  NoisePerlin.getRandom (x + 1) (y + 1)) * (1/16)
  let sides := (NoisePerlin.getRandom (x - 1) y +
                NoisePerlin.getRandom (x + 1) y +
                NoisePerlin.getRandom x (y - 1) +
                NoisePerlin.getRandom x (y + 1)) * (1/8)
  let center := NoisePerlin.getRandom x y * (1/4)
  corners + sides + center

/-- Method getInterpolatedNoise(x, y) of NoisePerlin. -/
def NoisePerlin.getInterpolatedNoise (x y : ℚ) : ℚ :=
  let wholeX := int32 x
  let wholeY := int32 y
  let fracX := x - wholeX
  let fracY := y - wholeY
  let value0 := NoisePerlin.getSmoothNoise (wholeX : ℚ) (wholeY : ℚ)
  let value1 := NoisePerlin.getSmoothNoise ((wholeX : ℚ) + 1) (wholeY : ℚ)
  let value2 := NoisePerlin.getSmoothNoise (wholeX : ℚ) ((wholeY : ℚ) + 1)
  let value3 := NoisePerlin.getSmoothNoise ((wholeX : ℚ) + 1) ((wholeY : ℚ) + 1)
  let interpolated0 := interpolateLinear value0 value1 fracX
  let interpolated1 := interpolateLinear value2 value3 fracX
  interpolateLinear interpolated0 interpolated1 fracY

/-- Octave summation loop of NoisePerlin.getValue, carried state
(result, frequency, amplitude, maxAmplitude). -/
def perlinOctaveLoop (p : NoisePerlin) (x y : ℚ) :
    ℕ → ℚ × ℚ × ℚ × ℚ → ℚ × ℚ × ℚ × ℚ
  | 0, acc => acc
  | k + 1, (result, frequency, amplitude, maxAmplitude) =>
    perlinOctaveLoop p x y k
      (result + NoisePerlin.getInterpolatedNoise (x * frequency) (y * frequency) * amplitude,
       frequency * 2,
       amplitude * p.persistence,
       maxAmplitude + amplitude)

/-- Method getValue(x, y) of NoisePerlin.  The final division is exact
rational division; when maxAmplitude is 0 (zero octaves) the source
produces NaN where this model produces 0, a case no theorem below relies
on. -/
def NoisePerlin.getValue (p : NoisePerlin) (x y : ℚ) : ℚ :=
  let acc := perlinOctaveLoop p x y p.octaves (0, p.scale, 1, 0)
  acc.1 / acc.2.2.2

/-- Method getPixelRaw(x, y) of NoisePerlin. -/
def NoisePerlin.getPixelRaw (p : NoisePerlin) (x y : ℚ) : ℚ :=
  p.getValue (x + p.seed) (y + p.seed)

/-- Method getPixel(x, y) of NoisePerlin: affine map of the raw value from
the nominal range -1 .. 1 to the display range 0 .. 255. -/
def NoisePerlin.getPixel (p : NoisePerlin) (x y : ℚ) : ℚ :=
  ((p.getPixelRaw x y + 1) * (1/2)) * 255

/-! ### NoiseSimplex (noise.js) -/

/-- Parameters and seed of the NoiseSimplex class (defaults from the
constructor). -/
structure NoiseSimplex where
  octaves : ℕ := 6
  persistence : ℚ := 1/2
  scale : ℚ := 1/100
  seed : ℚ := 0

/-- Gradient table NoiseSimplex.grad3 of the source. -/
def NoiseSimplex.grad3 : List (ℤ × ℤ × ℤ) :=
  [(1, 1, 0), (-1, 1, 0), (1, -1, 0), (-1, -1, 0),
   (1, 0, 1), (-1, 0, 1), (1, 0, -1), (-1, 0, -1),
   (0, 1, 1), (0, -1, 1), (0, 1, -1), (0, -1, -1)]

/-- Permutation table NoiseSimplex.perm of the source: a 256 entry list
repeated twice. -/
def NoiseSimplex.permHalf : List ℕ :=
  [151, 160, 137, 91, 90, 15, 131, 13, 201, 95, 96, 53, 194, 233, 7, 225, 140, 36, 103, 30, 69, 142,
   8, 99, 37, 240, 21, 10, 23, 190, 6, 148, 247, 120, 234, 75, 0, 26, 197, 62, 94, 252, 219, 203, 117,
   35, 11, 32, 57, 177, 33, 88, 237, 149, 56, 87, 174, 20, 125, 136, 171, 168, 68, 175, 74, 165, 71,
   134, 139, 48, 27, 166, 77, 146, 158, 231, 83, 111, 229, 122, 60, 211, 133, 230, 220, 105, 92, 41,
   55, 46, 245, 40, 244, 102, 143, 54, 65, 25, 63, 161, 1, 216, 80, 73, 209, 76, 132, 187, 208, 89,
   18, 169, 200, 196, 135, 130, 116, 188, 159, 86, 164, 100, 109, 198, 173, 186, 3, 64, 52, 217, 226,
   250, 124, 123, 5, 202, 38, 147, 118, 126, 255, 82, 85, 212, 207, 206, 59, 227, 47, 16, 58, 17, 182,
   189, 28, 42, 223, 183, 170, 213, 119, 248, 152, 2, 44, 154, 163, 70, 221, 153, 101, 155, 167, 43,
   172, 9, 129, 22, 39, 253, 19, 98, 108, 110, 79, 113, 224, 232, 178, 185, 112, 104, 218, 246, 97,
   228, 251, 34, 242, 193, 238, 210, 144, 12, 191, 179, 162, 241, 81, 51, 145, 235, 249, 14, 239,
   107, 49, 192, 214, 31, 181, 199, 106, 157, 184, 84, 204, 176, 115, 121, 50, 45, 127, 4, 150, 254,
   138, 236, 205, 93, 222, 114, 67, 29, 24, 72, 243, 141, 128, 195, 78, 66, 215, 61, 156, 180]

/-- Full 512 entry permutation table. -/
def NoiseSimplex.permTable : List ℕ :=
  NoiseSimplex.permHalf ++ NoiseSimplex.permHalf

/-- Method getRawNoise(x, y) of NoiseSimplex, following the source with its
literal skew constants F2 and G2 read exactly. -/
def NoiseSimplex.getRawNoise (x y : ℚ) : ℚ :=
  let F2 : ℚ := 36602540378 / 100000000000
  let s := (x + y) * F2
  let i := int32 (x + s)
  let j := int32 (y + s)
  let G2 : ℚ := 2113248654 / 10000000000
  let t := ((i + j : ℤ) : ℚ) * G2
  let X0 := (i : ℚ) - t
  let Y0 := (j : ℚ) - t
  let x0 := x - X0
  let y0 := y - Y0
  let i1 : ℕ := if x0 > y0 then 1 else 0
  let j1 : ℕ := if x0 > y0 then 0 else 1
  let x1 := x0 - (i1 : ℚ) + G2
  let y1 := y0 - (j1 : ℚ) + G2
  let x2 := x0 - 1 + 2 * G2
  let y2 := y0 - 1 + 2 * G2
  let ii : ℕ := (jsAnd i 255).toNat
  let jj : ℕ := (jsAnd j 255).toNat
  let gi0 := NoiseSimplex.permTable.getD (ii + NoiseSimplex.permTable.getD jj 0) 0 % 12
  let gi1 := NoiseSimplex.permTable.getD (ii + i1 + NoiseSimplex.permTable.getD (jj + j1) 0) 0 % 12
  let gi2 := NoiseSimplex.permTable.getD (ii + 1 + NoiseSimplex.permTable.getD (jj + 1) 0) 0 % 12
  let t0 := 1/2 - x0 * x0 - y0 * y0
  let n0 := if t0 > 0 then (t0 * t0) * (t0 * t0) * dot2 (NoiseSimplex.grad3.getD gi0 (0, 0, 0)) (x0, y0) else 0
  let t1 := 1/2 - x1 * x1 - y1 * y1
  let n1 := if t1 > 0 then (t1 * t1) * (t1 * t1) * dot2 (NoiseSimplex.grad3.getD gi1 (0, 0, 0)) (x1, y1) else 0
  let t2 := 1/2 - x2 * x2 - y2 * y2
  let n2 := if t2 > 0 then (t2 * t2) * (t2 * t2) * dot2 (NoiseSimplex.grad3.getD gi2 (0, 0, 0)) (x2, y2) else 0
  70 * (n0 + n1 + n2)

/-- Octave summation loop of NoiseSimplex.getValue, identical in structure
to the Perlin loop. -/
def simplexOctaveLoop (p : NoiseSimplex) (x y : ℚ) :
    ℕ → ℚ × ℚ × ℚ × ℚ → ℚ × ℚ × ℚ × ℚ
  | 0, acc => acc
  | k + 1, (result, frequency, amplitude, maxAmplitude) =>
    simplexOctaveLoop p x y k
      (result + NoiseSimplex.getRawNoise (x * frequency) (y * frequency) * amplitude,
       frequency * 2,
       amplitude * p.persistence,
       maxAmplitude + amplitude)

/-- Method getValue(x, y) of NoiseSimplex. -/
def NoiseSimplex.getValue (p : NoiseSimplex) (x y : ℚ) : ℚ :=
  let acc := simplexOctaveLoop p x y p.octaves (0, p.scale, 1, 0)
  acc.1 / acc.2.2.2

/-- Method getPixelRaw(x, y) of NoiseSimplex. -/
def NoiseSimplex.getPixelRaw (p : NoiseSimplex) (x y : ℚ) : ℚ :=
  p.getValue (x + p.seed) (y + p.seed)

/-- Method getPixel(x, y) of NoiseSimplex: same display map as Perlin. -/
def NoiseSimplex.getPixel (p : NoiseSimplex) (x y : ℚ) : ℚ :=
  ((p.getPixelRaw x y + 1) * (1/2)) * 255

/-! ### NoiseRandom (noise.js) -/

/-- State of the NoiseRandom class restricted to what its pixel methods
read: the owned PRNG is one of the four library generators.  The class
delegates getPixelRaw and getPixel to prng.next(0, 255). -/
def NoiseRandom.getPixelRaw (word : ℕ) : ℚ :=
  Random.next word 0 255

/-- Method getPixel(x, y) of NoiseRandom: identical to getPixelRaw. -/
def NoiseRandom.getPixel (word : ℕ) : ℚ :=
  NoiseRandom.getPixelRaw word

/-! ### NoiseWorley (noise.js)

The Worley algorithm reaches the library functions Math.sqrt, Math.log,
Math.cos and Math.sin (through the Box-Muller gaussian and the radius
sampling) and the constant Math.PI.  These are abstracted as a bundle of
arbitrary rational functions; every theorem about Worley below is proved
for all instantiations of the bundle.  The two unbounded loops (the polar
rejection loop of the gaussian and the ring search of getValue) take
explicit fuel and return none when it runs out. -/

/-- Abstract bundle for the transcendental library functions used by the
Worley code path. -/
structure MathFns where
  sqrt : ℚ → ℚ
  log : ℚ → ℚ
  cos : ℚ → ℚ
  sin : ℚ → ℚ
  pi : ℚ

/-- Rejection loop of gaussianRand (the do-while of the polar Box-Muller
transform): draws pairs until their squared norm is below one, returning
the pair, the squared norm and the advanced generator. -/
def gaussianPolarLoop : ℕ → RandomXorShift32 → Option (ℚ × ℚ × ℚ × RandomXorShift32)
  | 0, _ => none
  | fuel + 1, rng =>
    let (w0, r1) := rng.nextUnbound
    let x0 := 2 * Random.nextf w0 - 1
    let (w1, r2) := r1.nextUnbound
    let x1 := 2 * Random.nextf w1 - 1
    let w := x0 * x0 + x1 * x1
    if w ≥ 1 then gaussianPolarLoop fuel r2 else some (x0, x1, w, r2)

/-- Embedding of the source function gaussianRand(rng).  The source resets
its generate flag at every entry, so each call regenerates a fresh pair and
returns the first component scaled by sqrt(-2 log w / w). -/
def gaussianRand (fns : MathFns) (fuel : ℕ) (rng : RandomXorShift32) :
    Option (ℚ × RandomXorShift32) :=
  (gaussianPolarLoop fuel rng).map fun r =>
    let w := fns.sqrt ((-2 * fns.log r.2.2.1) / r.2.2.1)
    (r.1 * w, r.2.2.2)

/-- Embedding of the source function gaussianRandAdjusted(rng, mean,
stddev). -/
def gaussianRandAdjusted (fns : MathFns) (fuel : ℕ) (rng : RandomXorShift32)
    (mean stddev : ℚ) : Option (ℚ × RandomXorShift32) :=
  (gaussianRand fns fuel rng).map fun r => (r.1 * stddev + mean, r.2)

/-- Embedding of the source function radiusSampleRadius(step). -/
def radiusSampleRadius (fns : MathFns) (step : ℕ) : ℤ :=
  jsTrunc ((fns.sqrt (step : ℚ) - 1) * (1/2)) + 1

/-- Embedding of the source function radiusSample(step): relative offset of
the neighboring region for the given step counter. -/
def radiusSample (fns : MathFns) (step : ℕ) : ℚ × ℚ :=
  if step = 0 then (0, 0)
  else
    let radius : ℤ := radiusSampleRadius fns step
    let radiusStart : ℤ := 4 * (radius * radius) - 4 * radius + 1
    let angleStep : ℚ := (2 * fns.pi) / ((radius : ℚ) * 8)
    let angle : ℚ := ((step : ℚ) - (radiusStart : ℚ)) * angleStep
    ((radius : ℚ) * fns.cos angle, (radius : ℚ) * fns.sin angle)

/-- State of the NoiseWorley class (defaults from the constructor).
Entries of the nearest-distance list use none for Infinity. -/
structure NoiseWorley where
  regionDimensions : ℚ := 16
  dimensionRecip : ℚ := 1/16
  densityMean : ℚ := 3
  densityStdDev : ℚ := 3
  nClosestPoints : ℕ := 3
  prng : RandomXorShift32 := RandomXorShift32.new
  distances : List (Option ℚ) := []
  currX : ℚ := 0
  currY : ℚ := 0
  seed : ℚ := 1337

/-- Method insertDistance(distance) of NoiseWorley as a transformation of
the nearest-distance list: scan for a near-duplicate (within 0.01) among
the finite entries, stop at the first strictly larger entry (Infinity
included), insert there and drop the last entry to keep the length. -/
def NoiseWorley.insertDistance (distance : ℚ) : List (Option ℚ) → List (Option ℚ)
  | [] => []
  | d :: rest =>
    match d with
    | some v =>
      if |distance - v| < 1/100 then some v :: rest
      else if distance < v then some distance :: (some v :: rest).dropLast
      else some v :: NoiseWorley.insertDistance distance rest
    | none => some distance :: (none :: rest).dropLast

/-- Iteration count of the feature-point loop of checkRegion: the JavaScript
counter runs while i < numFeaturePoints with numFeaturePoints a float. -/
def featureCount (nfp : ℚ) : ℕ :=
  if nfp ≤ 0 then 0 else (Int.toNat ⌈nfp⌉)

/-- Feature-point loop of checkRegion: each iteration draws two uniform
coordinates inside the region and inserts the squared distance to the
current query point. -/
def worleyFeatureLoop (regionX regionY dim currX currY : ℚ) :
    ℕ → RandomXorShift32 → List (Option ℚ) → RandomXorShift32 × List (Option ℚ)
  | 0, r, ds => (r, ds)
  | k + 1, r, ds =>
    let (w1, r1) := r.nextUnbound
    let featureX := regionX * dim + Random.nextf w1 * dim
    let (w2, r2) := r1.nextUnbound
    let featureY := regionY * dim + Random.nextf w2 * dim
    let vx := featureX - currX
    let vy := featureY - currY
    let vecLength := vx * vx + vy * vy
    worleyFeatureLoop regionX regionY dim currX currY k r2 (NoiseWorley.insertDistance vecLength ds)

/-- Method checkRegion(regionX, regionY) of NoiseWorley: reseed the owned
PRNG from the global seed plus the cantor pairing of the region
coordinates, draw a gaussian feature count and insert the feature
distances. -/
def NoiseWorley.checkRegion (fns : MathFns) (fuelG : ℕ) (st : NoiseWorley)
    (regionX regionY : ℚ) : Option NoiseWorley :=
  let regionIndex := cantorPair regionX regionY
  let prng1 := st.prng.setSeed (st.seed + regionIndex)
  match gaussianRandAdjusted fns fuelG prng1 st.densityMean st.densityStdDev with
  | none => none
  | some r =>
    let out := worleyFeatureLoop regionX regionY st.regionDimensions st.currX st.currY
      (featureCount r.1) r.2 st.distances
    some { st with prng := out.1, distances := out.2 }

/-- Method keepChecking(step) of NoiseWorley. -/
def NoiseWorley.keepChecking (fns : MathFns) (st : NoiseWorley) (step : ℕ) : Bool :=
  match st.distances.getD (st.nClosestPoints - 1) none with
  | none => true
  | some furthestNearFeature =>
    let prevRadius : ℤ := radiusSampleRadius fns (step - 1) - 1
    let currRadius : ℤ := radiusSampleRadius fns step - 1
    if prevRadius ≠ currRadius then
      let pr : ℚ := (prevRadius : ℚ) * st.regionDimensions
      if furthestNearFeature < pr * pr then false else true
    else true

/-- Method adjust(x) of NoiseWorley: snap a region offset to an integer,
rounding magnitudes further than epsilon from their truncation away from
zero. -/
def NoiseWorley.adjust (x : ℚ) : ℚ :=
  let epsilon : ℚ := 1/10000
  let intX : ℤ := jsTrunc x
  if x > 0 then
    (if x - (intX : ℚ) > epsilon then ((⌈x⌉ : ℤ) : ℚ) else (intX : ℚ))
  else if x < 0 then
    (if x - (intX : ℚ) < -epsilon then ((jsTrunc x : ℤ) : ℚ) else (intX : ℚ))
  else 0

/-- Ring search loop of NoiseWorley.getValue (the do-while): check the
current region, advance the radius sample, and continue while keepChecking
allows. -/
def worleySearchLoop (fns : MathFns) (fuelG : ℕ) (regionX regionY : ℚ) :
    ℕ → ℕ → ℚ → ℚ → NoiseWorley → Option NoiseWorley
  | 0, _, _, _, _ => none
  | fuel + 1, step, checkX, checkY, st =>
    match NoiseWorley.checkRegion fns fuelG st checkX checkY with
    | none => none
    | some st1 =>
      let nextCheck := radiusSample fns step
      let checkX1 := regionX + NoiseWorley.adjust nextCheck.1
      let checkY1 := regionY + NoiseWorley.adjust nextCheck.2
      if NoiseWorley.keepChecking fns st1 (step + 1) then
        worleySearchLoop fns fuelG regionX regionY fuel (step + 1) checkX1 checkY1 st1
      else some st1

/-- Method getValue(x, y) of NoiseWorley: store the query point, reset the
nearest-distance list to Infinity entries (resetDistances), run the ring
search from the region containing the query, and return the last tracked
nearest squared distance.  The outer none means the search fuel ran out;
the inner none is the Infinity a real run returns when no feature point was
ever inserted. -/
def NoiseWorley.getValue (fns : MathFns) (fuel fuelG : ℕ) (st : NoiseWorley)
    (x y : ℚ) : Option (Option ℚ) :=
  let st0 := { st with currX := x, currY := y,
                       distances := List.replicate st.nClosestPoints (none : Option ℚ) }
  let regionX : ℚ := ((int32 (x / st.regionDimensions) : ℤ) : ℚ)
  let regionY : ℚ := ((int32 (y / st.regionDimensions) : ℤ) : ℚ)
  (worleySearchLoop fns fuelG regionX regionY fuel 0 regionX regionY st0).map
    fun st1 => st1.distances.getD (st1.nClosestPoints - 1) none

/-- Method getPixelRaw(x, y) of NoiseWorley: delegates to getValue. -/
def NoiseWorley.getPixelRaw (fns : MathFns) (fuel fuelG : ℕ) (st : NoiseWorley)
    (x y : ℚ) : Option (Option ℚ) :=
  NoiseWorley.getValue fns fuel fuelG st x y

/-- Method getPixel(x, y) of NoiseWorley: delegates to getPixelRaw with no
display mapping. -/
def NoiseWorley.getPixel (fns : MathFns) (fuel fuelG : ℕ) (st : NoiseWorley)
    (x y : ℚ) : Option (Option ℚ) :=
  NoiseWorley.getPixelRaw fns fuel fuelG st x y

/-! ### Palette (surface.js) -/

/-- Embedding of the source function rgbToHsv(r, g, b). -/
def rgbToHsv (r g b : ℚ) : ℚ × ℚ × ℚ :=
  let mn := min r (min g b)
  let mx := max r (max g b)
  let delta := mx - mn
  if delta < 1/100000 then (0, 0, mx)
  else if mx > 0 then
    let s := delta / mx
    let h0 := if r ≥ mx then (g - b) / delta
              else if g ≥ mx then 2 + (b - r) / delta
              else 4 + (r - g) / delta
    let h1 := h0 * 60
    (if h1 < 0 then h1 + 360 else h1, s, mx)
  else (0, 0, mx)

/-- Embedding of the source function hsvToRgb(h, s, v); the literal
0.01666666666 is read exactly. -/
def hsvToRgb (h s v : ℚ) : ℚ × ℚ × ℚ :=
  if s > 0 then
    let hh := (if h ≥ 360 then 0 else h) * (1666666666 / 100000000000)
    let i := jsTrunc hh
    let f := hh - (i : ℚ)
    let p := v * (1 - s)
    let q := v * (1 - s * f)
    let t := v * (1 - s * (1 - f))
    if i = 0 then (v, t, p)
    else if i = 1 then (q, v, p)
    else if i = 2 then (p, v, t)
    else if i = 3 then (p, q, v)
    else if i = 4 then (t, p, v)
    else (v, p, q)
  else (v, v, v)

/-- Embedding of the source function lerp(from, to, frac) of surface.js
(unclamped, unlike the interpolateLinear of noise.js). -/
def lerp (f t frac : ℚ) : ℚ :=
  f * (1 - frac) + t * frac

/-- Embedding of the source function lerpColorRGB: channelwise linear
interpolation truncated to integers. -/
def lerpColorRGB (r0 g0 b0 r1 g1 b1 frac : ℚ) : ℚ × ℚ × ℚ :=
  ((jsTrunc (lerp r0 r1 frac) : ℤ), (jsTrunc (lerp g0 g1 frac) : ℤ), (jsTrunc (lerp b0 b1 frac) : ℤ))

/-- Embedding of the source function lerpColorHSV: convert to HSV,
interpolate there, convert back (no truncation). -/
def lerpColorHSV (r0 g0 b0 r1 g1 b1 frac : ℚ) : ℚ × ℚ × ℚ :=
  let hsv0 := rgbToHsv r0 g0 b0
  let hsv1 := rgbToHsv r1 g1 b1
  hsvToRgb (lerp hsv0.1 hsv1.1 frac) (lerp hsv0.2.1 hsv1.2.1 frac) (lerp hsv0.2.2 hsv1.2.2 frac)

/-- One palette segment as parsed by the PaletteSegment constructor: start
value, color channels and the mode string. -/
structure PaletteSegment where
  start : ℚ
  r : ℚ
  g : ℚ
  b : ℚ
  mode : String
deriving DecidableEq

instance : Inhabited PaletteSegment :=
  ⟨{ start := 0, r := 0, g := 0, b := 0, mode := "" }⟩

/-- Boolean prefix test on character lists, used to model the JavaScript
String.prototype.includes. -/
def charsLeadWith : List Char → List Char → Bool
  | [], _ => true
  | _ :: _, [] => false
  | a :: as, b :: bs => a == b && charsLeadWith as bs

/-- Boolean substring test on character lists. -/
def charsContain (sub : List Char) : List Char → Bool
  | [] => charsLeadWith sub []
  | c :: rest => charsLeadWith sub (c :: rest) || charsContain sub rest

/-- Model of the JavaScript s.includes(sub). -/
def jsIncludes (s sub : String) : Bool :=
  charsContain sub.data s.data

/-- Loop of Palette.findSegment: index holds the position of the last
segment seen whose start is strictly below the value; the scan breaks at
the first segment whose start is not. -/
def findSegmentGo (value : ℚ) : List PaletteSegment → ℕ → ℕ → ℕ
  | [], _, index => index
  | s :: rest, i, index =>
    if s.start < value then findSegmentGo value rest (i + 1) i else index

/-- Method findSegment(value) of Palette, over its sorted segment list. -/
def Palette.findSegment (segments : List PaletteSegment) (value : ℚ) : ℕ :=
  findSegmentGo value segments 0 0

/-- Method transform(value) of Palette.  The r, g and b locals start as the
input value; a solid segment overwrites them with its stored color; a
smooth segment interpolates toward the next segment when one exists (in RGB
or HSV space by substring match on the lowercased mode) and otherwise keeps
its own color; any other mode, None included, leaves the initial
value-replicated channels. -/
def Palette.transform (segments : List PaletteSegment) (value : ℚ) : ℚ × ℚ × ℚ :=
  let segmentIndex := Palette.findSegment segments value
  if segmentIndex < segments.length then
    let seg := segments.getD segmentIndex default
    let mode := seg.mode.toLower
    if mode == "solid" then (seg.r, seg.g, seg.b)
    else if jsIncludes mode "smooth" then
      (if segmentIndex < segments.length - 1 then
        let right := segments.getD (segmentIndex + 1) default
        let frac := (value - seg.start) / (right.start - seg.start)
        if jsIncludes mode "rgb" then lerpColorRGB seg.r seg.g seg.b right.r right.g right.b frac
        else if jsIncludes mode "hsv" then lerpColorHSV seg.r seg.g seg.b right.r right.g right.b frac
        else (value, value, value)
      else (seg.r, seg.g, seg.b))
    else (value, value, value)
  else (value, value, value)

/-- Written from the claim wording for comparison with the source: the
index of the last segment whose start is less than or equal to the value
(0 when there is none). -/
def findSegmentSpecLastLE (segments : List PaletteSegment) (value : ℚ) : ℕ :=
  (((List.range segments.length).filter
    fun i => decide ((segments.getD i default).start ≤ value)).getLast?).getD 0

/-! ### normalizeData (noise_multithreaded.js)

The normalization pass can produce the JavaScript special values: a flat
field gives range 0, reciprocal Infinity and remapped values 0 * Infinity,
which is NaN.  JavaScript numbers are therefore modelled for this function
by an explicit type with Infinity, -Infinity and NaN and the IEEE rules for
the operations the function performs.  All values reaching the division are
exactly representable, so exact rational arithmetic inside the finite case
is faithful. -/

/-- JavaScript number together with its special values. -/
inductive JSNum where
  | num (q : ℚ)
  | inf
  | negInf
  | nan
deriving DecidableEq

/-- IEEE subtraction on JSNum. -/
def JSNum.sub : JSNum → JSNum → JSNum
  | nan, _ => nan
  | _, nan => nan
  | num a, num b => num (a - b)
  | num _, inf => negInf
  | num _, negInf => inf
  | inf, num _ => inf
  | inf, inf => nan
  | inf, negInf => inf
  | negInf, num _ => negInf
  | negInf, inf => negInf
  | negInf, negInf => nan

/-- IEEE multiplication on JSNum; zero times an infinity is NaN. -/
def JSNum.mul : JSNum → JSNum → JSNum
  | nan, _ => nan
  | _, nan => nan
  | num a, num b => num (a * b)
  | num a, inf => if a > 0 then inf else if a < 0 then negInf else nan
  | num a, negInf => if a > 0 then negInf else if a < 0 then inf else nan
  | inf, num a => if a > 0 then inf else if a < 0 then negInf else nan
  | negInf, num a => if a > 0 then negInf else if a < 0 then inf else nan
  | inf, inf => inf
  | inf, negInf => negInf
  | negInf, inf => negInf
  | negInf, negInf => inf

/-- IEEE division on JSNum; a nonzero finite value divided by (positive)
zero is an infinity, zero by zero is NaN. -/
def JSNum.div : JSNum → JSNum → JSNum
  | nan, _ => nan
  | _, nan => nan
  | num a, num b =>
    if b ≠ 0 then num (a / b)
    else if a > 0 then inf
    else if a < 0 then negInf
    else nan
  | num _, inf => num 0
  | num _, negInf => num 0
  | inf, num b => if b ≥ 0 then inf else negInf
  | negInf, num b => if b ≥ 0 then negInf else inf
  | inf, inf => nan
  | inf, negInf => nan
  | negInf, inf => nan
  | negInf, negInf => nan

/-- JavaScript strict less-than on JSNum: every comparison with NaN is
false. -/
def JSNum.jsLess : JSNum → JSNum → Bool
  | nan, _ => false
  | _, nan => false
  | num a, num b => decide (a < b)
  | num _, inf => true
  | num _, negInf => false
  | inf, _ => false
  | negInf, negInf => false
  | negInf, _ => true

/-- Min/max sweep of normalizeData: the source walks the array from the
last position to the first, starting from min = Infinity and
max = -Infinity. -/
def normalizeScan (raw : List JSNum) : JSNum × JSNum :=
  raw.reverse.foldl
    (fun mm v =>
      (if JSNum.jsLess v mm.1 then v else mm.1,
       if JSNum.jsLess mm.2 v then v else mm.2))
    (JSNum.inf, JSNum.negInf)

/-- Embedding of the source function normalizeData(raw) of
noise_multithreaded.js: compute the global min and max, then remap every
element by (v - min) * (1 / (max - min)) * 255. -/
def normalizeData (raw : List JSNum) : List JSNum :=
  let mm := normalizeScan raw
  let range := mm.2.sub mm.1
  let rangeReciprocal := (JSNum.num 1).div range
  raw.map fun v => ((v.sub mm.1).mul rangeReciprocal).mul (JSNum.num 255)

/-! ### Tiled worker engine (noise_multithreaded.js)

Buffers are total maps from linear indices to values; the per-pixel noise
computed by a worker is abstracted as a function of the pixel coordinates,
which the purity results about the noise classes justify.  Completion
handling is modelled by folding the completion handler over the list of
completion messages in an arbitrary order. -/

/-- Single buffer write rawData[index] = value. -/
def setRaw (buf : ℕ → ℚ) (idx : ℕ) (v : ℚ) : ℕ → ℚ :=
  fun j => if j = idx then v else buf j

/-- Shared double loop shape of Noise.generateRaw and putRawData: for x
from startX to endX and y from startY to endY write g x y at linear index
y * width + x. -/
def fillRect (width sx ex sy ey : ℕ) (g : ℕ → ℕ → ℚ) (buf : ℕ → ℚ) : ℕ → ℚ :=
  (List.range' sx (ex - sx)).foldl
    (fun b x => (List.range' sy (ey - sy)).foldl (fun b2 y => setRaw b2 (y * width + x) (g x y)) b)
    buf

/-- Method generateRaw of the Noise base class, with the per-pixel
getPixelRaw abstracted as f. -/
def generateRawTile (f : ℕ → ℕ → ℚ) (width sx ex sy ey : ℕ) (raw : ℕ → ℚ) : ℕ → ℚ :=
  fillRect width sx ex sy ey f raw

/-- Embedding of the source function putRawData(sourceRaw, destRaw, width,
startX, endX, startY, endY). -/
def putRawData (sourceRaw destRaw : ℕ → ℚ) (width sx ex sy ey : ℕ) : ℕ → ℚ :=
  fillRect width sx ex sy ey (fun x y => sourceRaw (y * width + x)) destRaw

/-- Dispatch order of triggerNormalizedWorkers: x outer, y inner, giving
one tile per grid cell. -/
def tileList (numWorkersSide : ℕ) : List (ℕ × ℕ) :=
  (List.range numWorkersSide).flatMap fun x => (List.range numWorkersSide).map fun y => (x, y)

/-- Raw buffer a worker posts back: its private copy of the zero-filled
rawData with its own tile bounds filled from the noise function. -/
def workerRawOutput (f : ℕ → ℕ → ℚ) (width wStep hStep tx ty : ℕ) : ℕ → ℚ :=
  generateRawTile f width (tx * wStep) ((tx + 1) * wStep) (ty * hStep) ((ty + 1) * hStep)
    (fun _ => 0)

/-- Completion handler of triggerNormalizedWorkers for one tile: copy the
tile bounds of the posted buffer into the master raw buffer. -/
def applyCompletion (f : ℕ → ℕ → ℚ) (width wStep hStep : ℕ) (master : ℕ → ℚ)
    (t : ℕ × ℕ) : ℕ → ℚ :=
  putRawData (workerRawOutput f width wStep hStep t.1 t.2) master width
    (t.1 * wStep) ((t.1 + 1) * wStep) (t.2 * hStep) ((t.2 + 1) * hStep)

/-- Reassembly of the master raw buffer after processing the given sequence
of tile completion messages. -/
def reassemble (f : ℕ → ℕ → ℚ) (width wStep hStep : ℕ) (order : List (ℕ × ℕ))
    (master : ℕ → ℚ) : ℕ → ℚ :=
  order.foldl (applyCompletion f width wStep hStep) master

/-- Pixel membership in the rectangle of a tile. -/
def pixInTile (wStep hStep : ℕ) (t p : ℕ × ℕ) : Prop :=
  t.1 * wStep ≤ p.1 ∧ p.1 < (t.1 + 1) * wStep ∧ t.2 * hStep ≤ p.2 ∧ p.2 < (t.2 + 1) * hStep

instance (wStep hStep : ℕ) (t p : ℕ × ℕ) : Decidable (pixInTile wStep hStep t p) := by
  unfold pixInTile
  infer_instance

/-! ### UIMultiRange segment editor (ui_multirange.js)

Only the model state the claim speaks about is embedded: thumb index and
value, segment index and its copied display attributes.  The DOM render
refrees (build, update, destroy) do not touch these fields. -/

/-- Thumb of the editor model. -/
structure UIMultiRangeThumb where
  index : ℕ
  value : ℚ
deriving DecidableEq

instance : Inhabited UIMultiRangeThumb :=
  ⟨{ index := 0, value := 0 }⟩

/-- Segment of the editor model. -/
structure UIMultiRangeSegment where
  index : ℕ
  editable : Bool
  color : String
  mode : String
deriving DecidableEq

instance : Inhabited UIMultiRangeSegment :=
  ⟨{ index := 0, editable := false, color := "", mode := "" }⟩

/-- State of the UIMultiRange editor relevant to the claim. -/
structure UIMultiRange where
  min : ℚ
  max : ℚ
  thumbs : List UIMultiRangeThumb
  segments : List UIMultiRangeSegment
deriving DecidableEq

/-- Renumbering loop over thumbs: positions from k onward get their
position as index. -/
def renumberThumbsFrom (k : ℕ) (l : List UIMultiRangeThumb) : List UIMultiRangeThumb :=
  l.mapIdx fun i t => if k ≤ i then { t with index := i } else t

/-- Renumbering loop over segments. -/
def renumberSegmentsFrom (k : ℕ) (l : List UIMultiRangeSegment) : List UIMultiRangeSegment :=
  l.mapIdx fun i s => if k ≤ i then { s with index := i } else s

/-- Method splitSegment(segment) of UIMultiRange with its four cases: only
segment (no thumbs yet), leftmost segment, rightmost segment, interior
segment. -/
def UIMultiRange.splitSegment (mr : UIMultiRange) (segment : UIMultiRangeSegment) : UIMultiRange :=
  if mr.segments.length = 1 then
    let thumbValue := (mr.max - mr.min) * (1/2)
    { mr with
      thumbs := mr.thumbs ++ [{ index := 0, value := thumbValue }]
      segments := mr.segments ++
        [{ index := 1, editable := segment.editable, color := segment.color, mode := segment.mode }] }
  else
    let segmentIndex := segment.index
    if segmentIndex = 0 then
      let rightThumbValue := (mr.thumbs.getD 0 default).value
      let leftThumbValue := rightThumbValue * (1/2)
      { mr with
        thumbs := renumberThumbsFrom 1 ({ index := 0, value := leftThumbValue } :: mr.thumbs)
        segments := renumberSegmentsFrom 1
          ({ index := 0, editable := segment.editable, color := segment.color, mode := segment.mode }
            :: mr.segments) }
    else if segmentIndex = mr.thumbs.length then
      let leftThumbValue := (mr.thumbs.getD (segmentIndex - 1) default).value
      let rightThumbValue := (mr.max - leftThumbValue) * (1/2) + leftThumbValue
      { mr with
        thumbs := mr.thumbs ++ [{ index := segmentIndex, value := rightThumbValue }]
        segments := mr.segments ++
          [{ index := segmentIndex + 1, editable := segment.editable, color := segment.color,
             mode := segment.mode }] }
    else
      let leftThumbValue := (mr.thumbs.getD (segmentIndex - 1) default).value
      let rightThumbValue := (mr.thumbs.getD segmentIndex default).value
      let newThumbValue := (rightThumbValue - leftThumbValue) * (1/2) + leftThumbValue
      { mr with
        thumbs := renumberThumbsFrom segmentIndex
          (mr.thumbs.insertIdx segmentIndex { index := segmentIndex, value := newThumbValue })
        segments := renumberSegmentsFrom segmentIndex
          (mr.segments.insertIdx segmentIndex
            { index := segmentIndex, editable := segment.editable, color := segment.color,
              mode := segment.mode }) }

/-- Method removeSegment(segment) of UIMultiRange: guarded to refuse when a
single segment remains, with its three cases (rightmost, interior,
leftmost). -/
def UIMultiRange.removeSegment (mr : UIMultiRange) (segment : UIMultiRangeSegment) : UIMultiRange :=
  if 1 < mr.segments.length then
    let segmentIndex := segment.index
    if segmentIndex = mr.segments.length - 1 then
      { mr with
        thumbs := renumberThumbsFrom 0 (mr.thumbs.eraseIdx (segmentIndex - 1))
        segments := renumberSegmentsFrom 0 (mr.segments.eraseIdx segmentIndex) }
    else if 1 ≤ segmentIndex then
      let leftThumbValue := (mr.thumbs.getD (segmentIndex - 1) default).value
      let rightThumbValue := (mr.thumbs.getD segmentIndex default).value
      let newThumbValue := (rightThumbValue - leftThumbValue) * (1/2) + leftThumbValue
      let thumbs1 := renumberThumbsFrom 0 (mr.thumbs.eraseIdx (segmentIndex - 1))
      let thumbs2 := thumbs1.mapIdx fun i t =>
        if i = segmentIndex - 1 then { t with value := newThumbValue } else t
      { mr with
        thumbs := thumbs2
        segments := renumberSegmentsFrom 0 (mr.segments.eraseIdx segmentIndex) }
    else
      { mr with
        thumbs := renumberThumbsFrom 0 (mr.thumbs.eraseIdx 0)
        segments := renumberSegmentsFrom 0 (mr.segments.eraseIdx 0) }
  else mr

/-- Editor invariant of the claim: one more segment than thumbs and
contiguous zero-based indices in both lists. -/
def UIMultiRange.Inv (mr : UIMultiRange) : Prop :=
  mr.thumbs.length + 1 = mr.segments.length ∧
  (∀ i, i < mr.thumbs.length → (mr.thumbs.getD i default).index = i) ∧
  (∀ i, i < mr.segments.length → (mr.segments.getD i default).index = i)

/-! ### Helper lemmas about the 32-bit operations -/

lemma u32xor_lt (a b : ℕ) : u32xor a b < 4294967296 := by
  have h : (4294967296 : ℕ) = 2 ^ 32 := by norm_num
  have h1 : a % 4294967296 < 4294967296 := Nat.mod_lt _ (by norm_num)
  have h2 : b % 4294967296 < 4294967296 := Nat.mod_lt _ (by norm_num)
  unfold u32xor
  rw [h] at h1 h2 ⊢
  exact Nat.xor_lt_two_pow h1 h2

lemma u32xor_eq (a b : ℕ) (ha : a < 4294967296) (hb : b < 4294967296) :
    u32xor a b = a ^^^ b := by
  unfold u32xor
  rw [Nat.mod_eq_of_lt ha, Nat.mod_eq_of_lt hb]

lemma u32shl_lt (a k : ℕ) : u32shl a k < 4294967296 :=
  Nat.mod_lt _ (by norm_num)

lemma xor_lt_u32 (a b : ℕ) (ha : a < 4294967296) (hb : b < 4294967296) :
    a ^^^ b < 4294967296 := by
  have h : (4294967296 : ℕ) = 2 ^ 32 := by norm_num
  rw [h] at ha hb ⊢
  exact Nat.xor_lt_two_pow ha hb

lemma u32sar17_eq (a : ℕ) (h : a < 4294967296) :
    u32sar a 17 = if a < 2147483648 then a / 131072 else a / 131072 + 4294934528 := by
  simp only [u32sar, toUint32, toInt32]
  rw [Int.fdiv_eq_ediv _ (by norm_num)]
  have h1 : ((a : ℤ) % 4294967296) = (a : ℤ) := by omega
  rw [h1]
  split_ifs <;> omega

lemma u32sar17_lt (a : ℕ) (h : a < 4294967296) : u32sar a 17 < 4294967296 := by
  rw [u32sar17_eq a h]
  split_ifs <;> omega

lemma jsTrunc_eq_floor (q : ℚ) (h : 0 ≤ q) : jsTrunc q = ⌊q⌋ := by
  unfold jsTrunc
  rw [Rat.floor_def, Int.tdiv_eq_ediv (Rat.num_nonneg.mpr h) (Int.ofNat_nonneg q.den)]

/-! ### Claim C7: the XorShift32 recurrence -/

/-- Written from the claim wording for comparison with the source: the
three-shift recurrence with the 17 shift read as an unsigned (logical)
right shift, each intermediate masked to 32 bits. -/
def xorShift32SpecLogical (x : ℕ) : ℕ :=
  let a := u32xor x (u32shl x 13)
  let b := u32xor a (u32shr a 17)
  u32xor b (u32shl b 5)

/-- Source recurrence of RandomXorShift32.nextUnbound in closed arithmetic
form: the 17 shift is the sign-propagating shift of the word viewed as a
signed 32-bit integer, so words at or above 2^31 receive the propagated
sign bits 4294934528 = 2^32 - 2^15. -/
def xorShift32ArithStep (x : ℕ) : ℕ :=
  let a := (x % 4294967296) ^^^ ((x % 4294967296) * 8192 % 4294967296)
  let b := a ^^^ (if a < 2147483648 then a / 131072 else a / 131072 + 4294934528)
  b ^^^ (b * 32 % 4294967296)

/-- Claim C7, counterexample: seeded with 2^31 (a state with the sign bit
set when the right shift happens), the source step disagrees with the
logical-shift recurrence of the claim: the source produces 2147991552 where
the claimed recurrence gives 2148024320. -/
theorem xorshift32_shift17_counterexample :
    ((RandomXorShift32.new.setSeed 2147483648).nextUnbound).1 = 2147991552 ∧
    xorShift32SpecLogical (RandomXorShift32.new.setSeed 2147483648).state = 2148024320 ∧
    ((RandomXorShift32.new.setSeed 2147483648).nextUnbound).1 ≠
      xorShift32SpecLogical (RandomXorShift32.new.setSeed 2147483648).state := by
  refine ⟨?_, ?_, ?_⟩ <;> with_unfolding_all decide

/-- Claim C7, amended: nextUnbound advances the word by the three-shift
recurrence x ^= x shl 13; x ^= x sar 17; x ^= x shl 5 where the 17 shift is
the sign-propagating (arithmetic) right shift of the word as a signed
32-bit integer, every intermediate truncated to unsigned 32 bits; the
arithmetic and logical shifts agree exactly on words below 2^31, and seeded
with 1 the first output is 270369. -/
lemma xs32_arith_step (x : ℕ) :
    u32xor (u32xor (u32xor x (u32shl x 13)) (u32sar (u32xor x (u32shl x 13)) 17))
      (u32shl (u32xor (u32xor x (u32shl x 13)) (u32sar (u32xor x (u32shl x 13)) 17)) 5)
    = xorShift32ArithStep x := by
  have hA : u32xor x (u32shl x 13) < 4294967296 := u32xor_lt _ _
  have eA : u32xor x (u32shl x 13)
      = (x % 4294967296) ^^^ ((x % 4294967296) * 8192 % 4294967296) := by
    unfold u32xor u32shl
    rw [Nat.mod_mod_of_dvd _ dvd_rfl]
    norm_num
  have hS : u32sar (u32xor x (u32shl x 13)) 17 < 4294967296 := u32sar17_lt _ hA
  have eB : u32xor (u32xor x (u32shl x 13)) (u32sar (u32xor x (u32shl x 13)) 17)
      = u32xor x (u32shl x 13) ^^^ u32sar (u32xor x (u32shl x 13)) 17 :=
    u32xor_eq _ _ hA hS
  have hB : u32xor x (u32shl x 13) ^^^ u32sar (u32xor x (u32shl x 13)) 17 < 4294967296 :=
    xor_lt_u32 _ _ hA hS
  have eC : ∀ b : ℕ, b < 4294967296 → u32xor b (u32shl b 5) = b ^^^ (b * 32 % 4294967296) := by
    intro b hb
    unfold u32xor u32shl
    rw [Nat.mod_mod_of_dvd _ dvd_rfl, Nat.mod_eq_of_lt hb]
    norm_num
  rw [eB, eC _ hB, u32sar17_eq _ hA, eA]
  rfl

/-- Claim C7, amended: nextUnbound advances the word by the three-shift
recurrence x ^= x shl 13; x ^= x sar 17; x ^= x shl 5 where the 17 shift is
the sign-propagating (arithmetic) right shift of the word as a signed
32-bit integer, every intermediate truncated to unsigned 32 bits; the
arithmetic and logical shifts agree exactly on words below 2^31, and seeded
with 1 the first output is 270369. -/
theorem xorshift32_recurrence_arith :
    (∀ r : RandomXorShift32,
      (r.nextUnbound).1 = xorShift32ArithStep r.state ∧
      (r.nextUnbound).2 = { r with state := xorShift32ArithStep r.state }) ∧
    (∀ a : ℕ, a < 2147483648 → u32sar a 17 = u32shr a 17) ∧
    ((RandomXorShift32.new.setSeed 1).nextUnbound).1 = 270369 := by
  refine ⟨?_, ?_, by with_unfolding_all decide⟩
  · intro r
    constructor
    · show u32xor _ _ = _
      exact xs32_arith_step r.state
    · show (_, ({ r with state := u32xor _ _ } : RandomXorShift32)).2 = _
      rw [show ({ r with state := u32xor (u32xor (u32xor r.state (u32shl r.state 13)) (u32sar (u32xor r.state (u32shl r.state 13)) 17)) (u32shl (u32xor (u32xor r.state (u32shl r.state 13)) (u32sar (u32xor r.state (u32shl r.state 13)) 17)) 5) } : RandomXorShift32)
          = { r with state := xorShift32ArithStep r.state } from by rw [xs32_arith_step]]
  · intro a hlt
    have h : a < 4294967296 := by omega
    rw [u32sar17_eq a h, if_pos hlt]
    unfold u32shr
    rw [Nat.mod_eq_of_lt h]
    norm_num

/-- Claim C7, witness: the arithmetic/logical agreement clause of the
amended theorem instantiated at the word 100. -/
theorem xorshift32_recurrence_arith_witness :
    (100 : ℕ) < 2147483648 ∧ u32sar 100 17 = u32shr 100 17 :=
  ⟨by norm_num, xorshift32_recurrence_arith.2.1 100 (by norm_num)⟩

/-! ### Claim C8: range of Random.next -/

lemma random_next_bounds (mn mx value : ℕ) (h : mn < mx) (hv : value < 4294967296) :
    ((mn : ℚ) ≤ Random.next value (mn : ℚ) (mx : ℚ) ∧
      Random.next value (mn : ℚ) (mx : ℚ) < (mx : ℚ)) ∧
    ∃ w : ℕ, w < mx - mn ∧ Random.next value (mn : ℚ) (mx : ℚ) = ((mn + w : ℕ) : ℚ) := by
  set q : ℚ := ((value : ℚ) * Random.maxRecip) * ((mx : ℚ) - (mn : ℚ)) with hq
  have hrecip : (0 : ℚ) < Random.maxRecip := by
    unfold Random.maxRecip Random.max
    norm_num
  have hsub : (0 : ℚ) < (mx : ℚ) - (mn : ℚ) := by
    have : (mn : ℚ) < (mx : ℚ) := by exact_mod_cast h
    linarith
  have hq0 : 0 ≤ q := by
    apply mul_nonneg (mul_nonneg (Nat.cast_nonneg value) hrecip.le) hsub.le
  have hcastsub : ((mx - mn : ℕ) : ℚ) = (mx : ℚ) - (mn : ℚ) := by
    push_cast [Nat.cast_sub h.le]
    ring
  have hqlt : q < ((mx - mn : ℕ) : ℚ) := by
    have h1 : (value : ℚ) * Random.maxRecip < 1 := by
      unfold Random.maxRecip Random.max
      rw [mul_one_div, div_lt_one (by norm_num)]
      exact_mod_cast (by omega : value < 4294967297)
    calc q < 1 * ((mx : ℚ) - (mn : ℚ)) := by
              exact mul_lt_mul_of_pos_right h1 hsub
      _ = ((mx - mn : ℕ) : ℚ) := by rw [one_mul, hcastsub]
  have ht0 : 0 ≤ jsTrunc q := by
    rw [jsTrunc_eq_floor q hq0]
    exact Int.floor_nonneg.mpr hq0
  have htlt : jsTrunc q < ((mx - mn : ℕ) : ℤ) := by
    rw [jsTrunc_eq_floor q hq0]
    exact Int.floor_lt.mpr (by exact_mod_cast hqlt)
  have hw : uint32 q < mx - mn := by
    unfold uint32 toUint32
    omega
  have hnext : Random.next value (mn : ℚ) (mx : ℚ) = (mn : ℚ) + (uint32 q : ℚ) := by
    unfold Random.next
    rw [← hq]
  refine ⟨⟨?_, ?_⟩, ⟨uint32 q, hw, ?_⟩⟩
  · rw [hnext]
    have : (0 : ℚ) ≤ (uint32 q : ℚ) := Nat.cast_nonneg _
    linarith
  · rw [hnext]
    have hcast : ((uint32 q : ℕ) : ℚ) < ((mx - mn : ℕ) : ℚ) := by exact_mod_cast hw
    rw [hcastsub] at hcast
    linarith
  · rw [hnext]
    push_cast
    ring

/-- Claim C8: for unsigned integers min strictly below max and any 32-bit
word from nextUnbound, next(min, max) lands in the half-open range
min .. max: the word is scaled by the fixed constant maxRecip (the
reciprocal of 2^32 + 1, not a modulo reduction) and truncated toward zero,
so the result is min plus a natural number strictly below max - min. -/
theorem random_next_in_range (mn mx value : ℕ) (h : mn < mx) (hv : value < 4294967296) :
    ((mn : ℚ) ≤ Random.next value (mn : ℚ) (mx : ℚ) ∧
      Random.next value (mn : ℚ) (mx : ℚ) < (mx : ℚ)) ∧
    ∃ w : ℕ, w < mx - mn ∧ Random.next value (mn : ℚ) (mx : ℚ) = ((mn + w : ℕ) : ℚ) :=
  random_next_bounds mn mx value h hv

/-- Claim C8, witness: the bound instantiated at min 0, max 255 and the
largest 32-bit word. -/
theorem random_next_in_range_witness :
    (0 : ℕ) < 255 ∧ (4294967295 : ℕ) < 4294967296 ∧
    (((0 : ℕ) : ℚ) ≤ Random.next 4294967295 ((0 : ℕ) : ℚ) ((255 : ℕ) : ℚ) ∧
      Random.next 4294967295 ((0 : ℕ) : ℚ) ((255 : ℕ) : ℚ) < ((255 : ℕ) : ℚ)) :=
  ⟨by norm_num, by norm_num,
    (random_next_in_range 0 255 4294967295 (by norm_num) (by norm_num)).1⟩

/-! ### Claim C2: setSeed reinitialization -/

/-- Claim C2, counterexample: a WELL512 generator seeded with 1, advanced
once, and reseeded with 1 does not continue like a freshly constructed
generator seeded with 1, because setSeed refills the sixteen state words
but leaves the circular index where the prior call moved it. -/
theorem prng_setSeed_history_counterexample :
    ((((RandomWELL512.new.setSeed 1).nextUnbound).2.setSeed 1).nextUnbound).1 ≠
      ((RandomWELL512.new.setSeed 1).nextUnbound).1 ∧
    ((((RandomWELL512.new.setSeed 1).nextUnbound).2.setSeed 1).nextUnbound).1 = 768801968 ∧
    ((RandomWELL512.new.setSeed 1).nextUnbound).1 = 3262988808 := by
  refine ⟨?_, ?_, ?_⟩ <;> with_unfolding_all decide

/-- Claim C2, amended: setSeed reinitializes all internal state as a pure
function of the seed for XorShift32 and XorShift128 (any two generators
coincide completely after the same setSeed); WELL512.setSeed overwrites the
seed, the sixteen state words and the owned XorShift128 purely but does not
reset the circular index, and CMWC131104.setSeed overwrites the seed and
the whole q array purely but does not reset the carry or the position, so
those two kinds can continue differently than a fresh generator after
reseeding. -/
theorem prng_setSeed_reinit_behavior :
    (∀ (r1 r2 : RandomXorShift32) (v : ℚ), r1.setSeed v = r2.setSeed v) ∧
    (∀ (r1 r2 : RandomXorShift128) (v : ℚ), r1.setSeed v = r2.setSeed v) ∧
    (∀ (w1 w2 : RandomWELL512) (v : ℚ),
      (w1.setSeed v).state = (w2.setSeed v).state ∧
      (w1.setSeed v).seed = (w2.setSeed v).seed ∧
      (w1.setSeed v).xor = (w2.setSeed v).xor ∧
      (w1.setSeed v).index = w1.index) ∧
    (∀ (c : RandomCMWC131104) (v : ℚ),
      (c.setSeed v).c = c.c ∧ (c.setSeed v).i = c.i ∧
      (c.setSeed v).seed = uint32 v ∧
      (c.setSeed v).qarray = cmwcFill ((uint32 v : ℕ) : ℚ) 4096) :=
  ⟨fun _ _ _ => rfl, fun _ _ _ => rfl,
   fun _ _ _ => ⟨rfl, rfl, rfl, rfl⟩,
   fun _ _ => ⟨rfl, rfl, rfl, rfl⟩⟩

/-! ### Claim C3: normalization of a flat field -/

/-- Claim C3: on the perfectly flat raw field 1, 1, 1, 1 the normalization
pass of noise_multithreaded.js computes range 0, reciprocal Infinity, and
remaps every element to (1 - 1) * Infinity * 255, which is NaN: the pass
does not throw, but it fills the buffer with NaN instead of the defined
fallback pixel value the specification requires. -/
theorem normalize_flat_field_nan :
    normalizeData [JSNum.num 1, JSNum.num 1, JSNum.num 1, JSNum.num 1] =
      [JSNum.nan, JSNum.nan, JSNum.nan, JSNum.nan] := by
  with_unfolding_all decide

/-! ### Claim C6: the None palette mode -/

/-- Claim C6, counterexample: with the single palette segment
0,10,20,30,None the transform returns the input value replicated across the
three channels, so its output moves with the input instead of being one
fixed neutral gray. -/
theorem palette_none_counterexample :
    Palette.transform [{ start := 0, r := 10, g := 20, b := 30, mode := "None" }] 5 = (5, 5, 5) ∧
    Palette.transform [{ start := 0, r := 10, g := 20, b := 30, mode := "None" }] 6 = (6, 6, 6) ∧
    Palette.transform [{ start := 0, r := 10, g := 20, b := 30, mode := "None" }] 5 ≠
      Palette.transform [{ start := 0, r := 10, g := 20, b := 30, mode := "None" }] 6 := by
  refine ⟨?_, ?_, ?_⟩ <;> with_unfolding_all decide

/-- Claim C6, amended: whenever the segment resolved for the input value
has mode None (lowercased, so neither solid nor a smooth mode), transform
returns the input value replicated across the R, G and B channels — the
grayscale passthrough — not a fixed sentinel color.  The fixed gray
CCCCCC seen in the editor belongs to the slider widget rendering, not to
Palette.transform. -/
theorem palette_none_returns_input (segments : List PaletteSegment) (value : ℚ)
    (h : ((segments.getD (Palette.findSegment segments value) default).mode).toLower = "none") :
    Palette.transform segments value = (value, value, value) := by
  unfold Palette.transform
  by_cases hlt : Palette.findSegment segments value < segments.length
  · have h1 : (("none" : String) == "solid") = false := by decide
    have h2 : jsIncludes "none" "smooth" = false := by decide
    simp only [if_pos hlt, h, h1, h2]
    simp
  · simp only [if_neg hlt]

/-- Claim C6, witness: the amended theorem applied to the concrete None
palette at input 5. -/
theorem palette_none_returns_input_witness :
    ((([{ start := 0, r := 10, g := 20, b := 30, mode := "None" }] : List PaletteSegment).getD
        (Palette.findSegment [{ start := 0, r := 10, g := 20, b := 30, mode := "None" }] 5)
        default).mode).toLower = "none" ∧
    Palette.transform [{ start := 0, r := 10, g := 20, b := 30, mode := "None" }] 5 = (5, 5, 5) :=
  ⟨by with_unfolding_all decide,
    palette_none_returns_input _ _ (by with_unfolding_all decide)⟩

/-! ### Claim C5: findSegment and ties -/

/-- Length of the leading run of segments whose start is strictly below the
value; findSegment is characterized through it. -/
def leadingBelow (value : ℚ) : List PaletteSegment → ℕ
  | [] => 0
  | s :: rest => if s.start < value then leadingBelow value rest + 1 else 0

lemma findSegmentGo_eq (value : ℚ) : ∀ (l : List PaletteSegment) (i index : ℕ),
    findSegmentGo value l i index =
      if leadingBelow value l = 0 then index else i + leadingBelow value l - 1 := by
  intro l
  induction l with
  | nil => intro i index; simp [findSegmentGo, leadingBelow]
  | cons s rest ih =>
    intro i index
    unfold findSegmentGo leadingBelow
    by_cases hs : s.start < value
    · rw [if_pos hs, if_pos hs, ih]
      by_cases hr : leadingBelow value rest = 0
      · simp [hr]
      · rw [if_neg hr]
        have h1 : ¬(leadingBelow value rest + 1 = 0) := by omega
        rw [if_neg h1]
        omega
    · rw [if_neg hs, if_neg hs]
      simp

lemma leadingBelow_le (value : ℚ) : ∀ l : List PaletteSegment,
    leadingBelow value l ≤ l.length := by
  intro l
  induction l with
  | nil => simp [leadingBelow]
  | cons s rest ih =>
    unfold leadingBelow
    by_cases hs : s.start < value
    · rw [if_pos hs]; simpa using ih
    · rw [if_neg hs]; simp

lemma leadingBelow_get (value : ℚ) : ∀ (l : List PaletteSegment) (i : ℕ),
    i < leadingBelow value l → (l.getD i default).start < value := by
  intro l
  induction l with
  | nil => intro i h; simp [leadingBelow] at h
  | cons s rest ih =>
    intro i h
    unfold leadingBelow at h
    by_cases hs : s.start < value
    · rw [if_pos hs] at h
      match i with
      | 0 => simpa using hs
      | j + 1 =>
        rw [List.getD_cons_succ]
        exact ih j (by omega)
    · rw [if_neg hs] at h
      omega

lemma leadingBelow_max (value : ℚ) : ∀ l : List PaletteSegment,
    l.Pairwise (fun a b => a.start ≤ b.start) →
    ∀ i, i < l.length → (l.getD i default).start < value → i < leadingBelow value l := by
  intro l
  induction l with
  | nil => intro _ i h; simp at h
  | cons s rest ih =>
    intro hpair i hi hstart
    rw [List.pairwise_cons] at hpair
    unfold leadingBelow
    by_cases hs : s.start < value
    · rw [if_pos hs]
      match i with
      | 0 => omega
      | j + 1 =>
        rw [List.getD_cons_succ] at hstart
        have := ih hpair.2 j (by simpa using hi) hstart
        omega
    · exfalso
      apply hs
      match i with
      | 0 => simpa using hstart
      | j + 1 =>
        rw [List.getD_cons_succ] at hstart
        have hj : j < rest.length := by simpa using hi
        have hmem : rest.getD j default ∈ rest := by
          rw [List.getD_eq_getElem rest default hj]
          exact List.getElem_mem hj
        exact lt_of_le_of_lt (hpair.1 _ hmem) hstart

/-- Claim C5, counterexample: in the palette with segments starting at 0
and 128, findSegment(128) returns 0, not the index 1 of the last segment
whose start is less than or equal to 128: a segment whose start equals the
value does not qualify, because the scan compares with strict less-than. -/
theorem findSegment_tie_counterexample :
    Palette.findSegment
      [{ start := 0, r := 0, g := 0, b := 0, mode := "Solid" },
       { start := 128, r := 255, g := 255, b := 255, mode := "Solid" }] 128 = 0 ∧
    findSegmentSpecLastLE
      [{ start := 0, r := 0, g := 0, b := 0, mode := "Solid" },
       { start := 128, r := 255, g := 255, b := 255, mode := "Solid" }] 128 = 1 ∧
    Palette.findSegment
      [{ start := 0, r := 0, g := 0, b := 0, mode := "Solid" },
       { start := 128, r := 255, g := 255, b := 255, mode := "Solid" }] 128 ≠
    findSegmentSpecLastLE
      [{ start := 0, r := 0, g := 0, b := 0, mode := "Solid" },
       { start := 128, r := 255, g := 255, b := 255, mode := "Solid" }] 128 := by
  refine ⟨?_, ?_, ?_⟩ <;> with_unfolding_all decide

/-- Claim C5, amended: for segments sorted ascending by start, findSegment
returns the index of the last segment whose start is strictly less than the
value, and 0 when no segment's start is strictly below it; a segment whose
start is exactly equal to the value does not qualify. -/
theorem findSegment_last_strict (segments : List PaletteSegment) (value : ℚ)
    (hsorted : segments.Pairwise (fun a b => a.start ≤ b.start)) (hne : segments ≠ []) :
    Palette.findSegment segments value < segments.length ∧
    (∀ i, i < segments.length → (segments.getD i default).start < value →
      i ≤ Palette.findSegment segments value) ∧
    ((segments.getD (Palette.findSegment segments value) default).start < value ∨
      Palette.findSegment segments value = 0) := by
  have hgo : Palette.findSegment segments value =
      if leadingBelow value segments = 0 then 0 else leadingBelow value segments - 1 := by
    unfold Palette.findSegment
    rw [findSegmentGo_eq]
    by_cases h0 : leadingBelow value segments = 0 <;> simp [h0]
  have hlb_le := leadingBelow_le value segments
  have hlen : 0 < segments.length := List.length_pos.mpr hne
  refine ⟨?_, ?_, ?_⟩
  · rw [hgo]
    by_cases h0 : leadingBelow value segments = 0 <;> simp [h0] <;> omega
  · intro i hi hstart
    have hmax := leadingBelow_max value segments hsorted i hi hstart
    rw [hgo]
    by_cases h0 : leadingBelow value segments = 0
    · omega
    · rw [if_neg h0]; omega
  · rw [hgo]
    by_cases h0 : leadingBelow value segments = 0
    · right; simp [h0]
    · left
      rw [if_neg h0]
      exact leadingBelow_get value segments _ (by omega)

/-- Claim C5, witness: the amended characterization applied to the sorted
two-segment palette at value 200, where the last segment strictly below is
index 1. -/
theorem findSegment_last_strict_witness :
    Palette.findSegment
      [{ start := 0, r := 0, g := 0, b := 0, mode := "Solid" },
       { start := 128, r := 255, g := 255, b := 255, mode := "Solid" }] 200 <
    ([{ start := 0, r := 0, g := 0, b := 0, mode := "Solid" },
      { start := 128, r := 255, g := 255, b := 255, mode := "Solid" }] : List PaletteSegment).length :=
  (findSegment_last_strict _ 200 (by with_unfolding_all decide) (by decide)).1

/-! ### Claim C4: display range of getPixel -/

set_option maxRecDepth 100000 in
/-- Claim C4, counterexample: the Perlin instance configured with
octaves 2, persistence -2, scale 1, seed 0 (all reachable through
setParam) produces a pixel value below 0 at the coordinate (0, 25): the
octave normalization divides by the amplitude sum 1 + (-2) = -1, so the
display map leaves the range 0 .. 255.  Worley needs no counterexample
computation: its getPixel is proved below to return the raw squared
distance unchanged. -/
theorem noise_getPixel_range_counterexample :
    NoisePerlin.getPixel { octaves := 2, persistence := -2, scale := 1, seed := 0 } 0 25 < 0 := by
  with_unfolding_all decide

/-- Claim C4, amended: the Random algorithm always lands in 0 .. 255;
Perlin and Simplex apply the affine display map (raw + 1) / 2 * 255, which
lands in 0 .. 255 exactly when the octave-normalized raw value lies in
-1 .. 1 (degenerate parameters such as a negative persistence can break
that); Worley applies no display map at all, its getPixel is the raw
N-th nearest squared distance. -/
theorem noise_getPixel_display_range :
    (∀ word : ℕ, word < 4294967296 →
      0 ≤ NoiseRandom.getPixel word ∧ NoiseRandom.getPixel word ≤ 255) ∧
    (∀ (p : NoisePerlin) (x y : ℚ), -1 ≤ p.getPixelRaw x y → p.getPixelRaw x y ≤ 1 →
      0 ≤ p.getPixel x y ∧ p.getPixel x y ≤ 255) ∧
    (∀ (p : NoiseSimplex) (x y : ℚ), -1 ≤ p.getPixelRaw x y → p.getPixelRaw x y ≤ 1 →
      0 ≤ p.getPixel x y ∧ p.getPixel x y ≤ 255) ∧
    (∀ (fns : MathFns) (fuel fuelG : ℕ) (st : NoiseWorley) (x y : ℚ),
      NoiseWorley.getPixel fns fuel fuelG st x y = NoiseWorley.getValue fns fuel fuelG st x y) := by
  refine ⟨?_, ?_, ?_, fun _ _ _ _ _ _ => rfl⟩
  · intro word hw
    have hb := (random_next_bounds 0 255 word (by norm_num) hw).1
    unfold NoiseRandom.getPixel NoiseRandom.getPixelRaw
    have h0 : (((0 : ℕ) : ℚ)) = (0 : ℚ) := by norm_num
    have h255 : (((255 : ℕ) : ℚ)) = (255 : ℚ) := by norm_num
    rw [h0, h255] at hb
    exact ⟨hb.1, hb.2.le⟩
  · intro p x y h1 h2
    unfold NoisePerlin.getPixel
    constructor <;> linarith
  · intro p x y h1 h2
    unfold NoiseSimplex.getPixel
    constructor <;> linarith

set_option maxRecDepth 100000 in
/-- Claim C4, witness: the Random bound at word 0, the Perlin and Simplex
bounds at concrete instances whose raw values are checked to lie in
-1 .. 1, and the Worley identity at a concrete function bundle and
state. -/
theorem noise_getPixel_display_range_witness :
    (0 ≤ NoiseRandom.getPixel 0 ∧ NoiseRandom.getPixel 0 ≤ 255) ∧
    (0 ≤ NoisePerlin.getPixel { octaves := 1, persistence := 1/2, scale := 0, seed := 0 } 0 0 ∧
      NoisePerlin.getPixel { octaves := 1, persistence := 1/2, scale := 0, seed := 0 } 0 0 ≤ 255) ∧
    (0 ≤ NoiseSimplex.getPixel { octaves := 1, persistence := 1/2, scale := 0, seed := 0 } 0 0 ∧
      NoiseSimplex.getPixel { octaves := 1, persistence := 1/2, scale := 0, seed := 0 } 0 0 ≤ 255) ∧
    NoiseWorley.getPixel ⟨fun _ => 0, fun _ => 0, fun _ => 0, fun _ => 0, 0⟩ 0 0 {} 0 0 =
      NoiseWorley.getValue ⟨fun _ => 0, fun _ => 0, fun _ => 0, fun _ => 0, 0⟩ 0 0 {} 0 0 :=
  ⟨noise_getPixel_display_range.1 0 (by norm_num),
   noise_getPixel_display_range.2.1 _ 0 0 (by with_unfolding_all decide)
     (by with_unfolding_all decide),
   noise_getPixel_display_range.2.2.1 _ 0 0 (by with_unfolding_all decide)
     (by with_unfolding_all decide),
   noise_getPixel_display_range.2.2.2 _ 0 0 {} 0 0⟩

/-! ### Claim C1: Worley purity -/

lemma checkRegion_prng_irrel (fns : MathFns) (fg : ℕ) (rd dr dm ds : ℚ) (n : ℕ)
    (p q : RandomXorShift32) (d : List (Option ℚ)) (cx cy s rx ry : ℚ) :
    NoiseWorley.checkRegion fns fg ⟨rd, dr, dm, ds, n, p, d, cx, cy, s⟩ rx ry =
      NoiseWorley.checkRegion fns fg ⟨rd, dr, dm, ds, n, q, d, cx, cy, s⟩ rx ry := rfl

lemma worleySearchLoop_prng_irrel (fns : MathFns) (fg : ℕ) (rx ry : ℚ) :
    ∀ (fuel step : ℕ) (cx cy : ℚ) (rd dr dm ds : ℚ) (n : ℕ)
      (p q : RandomXorShift32) (d : List (Option ℚ)) (cx0 cy0 s : ℚ),
    worleySearchLoop fns fg rx ry fuel step cx cy ⟨rd, dr, dm, ds, n, p, d, cx0, cy0, s⟩ =
      worleySearchLoop fns fg rx ry fuel step cx cy ⟨rd, dr, dm, ds, n, q, d, cx0, cy0, s⟩ := by
  intro fuel step cx cy rd dr dm ds n p q d cx0 cy0 s
  cases fuel with
  | zero => rfl
  | succ m =>
    simp only [worleySearchLoop]
    rw [checkRegion_prng_irrel fns fg rd dr dm ds n p q d cx0 cy0 s cx cy]

/-- Claim C1: for a fixed function bundle and identical configuration
(region dimensions, densities, point count and global seed), getValue and
hence getPixelRaw and getPixel of two Worley instances agree at every
query, whatever the instances' PRNG states, tracked distances and previous
query points are: every per-query mutable field is reset at the start of
getValue and the owned PRNG is reseeded from seed + cantorPair(region)
before its first use in every region visit, so prior queries and their
order cannot influence the result. -/
theorem worley_getValue_pure (fns : MathFns) (st1 st2 : NoiseWorley)
    (h1 : st1.regionDimensions = st2.regionDimensions)
    (h2 : st1.dimensionRecip = st2.dimensionRecip)
    (h3 : st1.densityMean = st2.densityMean)
    (h4 : st1.densityStdDev = st2.densityStdDev)
    (h5 : st1.nClosestPoints = st2.nClosestPoints)
    (h6 : st1.seed = st2.seed)
    (x y : ℚ) (fuel fuelG : ℕ) :
    NoiseWorley.getValue fns fuel fuelG st1 x y = NoiseWorley.getValue fns fuel fuelG st2 x y ∧
    NoiseWorley.getPixelRaw fns fuel fuelG st1 x y =
      NoiseWorley.getPixelRaw fns fuel fuelG st2 x y ∧
    NoiseWorley.getPixel fns fuel fuelG st1 x y = NoiseWorley.getPixel fns fuel fuelG st2 x y := by
  have key : NoiseWorley.getValue fns fuel fuelG st1 x y =
      NoiseWorley.getValue fns fuel fuelG st2 x y := by
    obtain ⟨rd1, dr1, dm1, ds1, n1, p1, d1, cx1, cy1, s1⟩ := st1
    obtain ⟨rd2, dr2, dm2, ds2, n2, p2, d2, cx2, cy2, s2⟩ := st2
    simp only at h1 h2 h3 h4 h5 h6
    subst h1 h2 h3 h4 h5 h6
    unfold NoiseWorley.getValue
    dsimp only
    exact congrArg _
      (worleySearchLoop_prng_irrel fns fuelG _ _ fuel 0 _ _ rd1 dr1 dm1 ds1 n1 p1 p2
        (List.replicate n1 none) x y s1)
  exact ⟨key, key, key⟩

/-- Claim C1, witness: two instances sharing the default configuration but
holding different PRNG states, distance lists and previous query points
return the same value at the query (2, 3). -/
theorem worley_getValue_pure_witness :
    NoiseWorley.getValue ⟨fun _ => 0, fun _ => 0, fun _ => 0, fun _ => 0, 0⟩ 1 1
        { prng := ⟨7, 7⟩, distances := [some 3], currX := 9, currY := 9 } 2 3 =
      NoiseWorley.getValue ⟨fun _ => 0, fun _ => 0, fun _ => 0, fun _ => 0, 0⟩ 1 1 {} 2 3 :=
  (worley_getValue_pure _ _ _ rfl rfl rfl rfl rfl rfl 2 3 1 1).1

/-! ### Claim C9: tile partition and order independence -/

lemma fillCol_apply (width x : ℕ) (g : ℕ → ℕ → ℚ) (hx : x < width) :
    ∀ (n sy : ℕ) (b : ℕ → ℚ) (idx : ℕ),
    (List.range' sy n).foldl (fun b2 y => setRaw b2 (y * width + x) (g x y)) b idx =
      if idx % width = x ∧ sy ≤ idx / width ∧ idx / width < sy + n then g x (idx / width)
      else b idx := by
  intro n
  induction n with
  | zero =>
    intro sy b idx
    rw [show List.range' sy 0 = [] from rfl]
    simp only [List.foldl_nil]
    rw [if_neg (by omega)]
  | succ m ih =>
    intro sy b idx
    rw [List.range'_succ]
    simp only [List.foldl_cons]
    rw [ih (sy + 1)]
    by_cases h1 : idx % width = x ∧ sy + 1 ≤ idx / width ∧ idx / width < sy + 1 + m
    · rw [if_pos h1,
        if_pos (show idx % width = x ∧ sy ≤ idx / width ∧ idx / width < sy + (m + 1) by omega)]
    · rw [if_neg h1]
      unfold setRaw
      by_cases h2 : idx = sy * width + x
      · have hmod : idx % width = x := by
          rw [h2, mul_comm, Nat.mul_add_mod, Nat.mod_eq_of_lt hx]
        have hdiv : idx / width = sy := by
          rw [h2, mul_comm, Nat.mul_add_div (by omega), Nat.div_eq_of_lt hx]
          omega
        rw [if_pos h2, if_pos ⟨hmod, by omega, by omega⟩, hdiv]
      · rw [if_neg h2]
        by_cases h3 : idx % width = x ∧ sy ≤ idx / width ∧ idx / width < sy + (m + 1)
        · exfalso
          apply h2
          have hq : idx / width = sy := by omega
          calc idx = width * (idx / width) + idx % width := (Nat.div_add_mod idx width).symm
            _ = sy * width + x := by rw [hq, h3.1]; ring
        · rw [if_neg h3]

lemma fillRows_apply (width sy ey : ℕ) (g : ℕ → ℕ → ℚ) :
    ∀ (n sx : ℕ), sx + n ≤ width →
    ∀ (b : ℕ → ℚ) (idx : ℕ),
    (List.range' sx n).foldl
        (fun b1 x =>
          (List.range' sy (ey - sy)).foldl (fun b2 y => setRaw b2 (y * width + x) (g x y)) b1)
        b idx =
      if sx ≤ idx % width ∧ idx % width < sx + n ∧ sy ≤ idx / width ∧ idx / width < ey then
        g (idx % width) (idx / width)
      else b idx := by
  intro n
  induction n with
  | zero =>
    intro sx _ b idx
    rw [show List.range' sx 0 = [] from rfl]
    simp only [List.foldl_nil]
    rw [if_neg (by omega)]
  | succ m ih =>
    intro sx hsx b idx
    rw [List.range'_succ]
    simp only [List.foldl_cons]
    rw [ih (sx + 1) (by omega)]
    rw [fillCol_apply width sx g (by omega) (ey - sy) sy b idx]
    by_cases h1 : sx + 1 ≤ idx % width ∧ idx % width < sx + 1 + m ∧ sy ≤ idx / width ∧
        idx / width < ey
    · rw [if_pos h1, if_pos (by omega :
        sx ≤ idx % width ∧ idx % width < sx + (m + 1) ∧ sy ≤ idx / width ∧ idx / width < ey)]
    · rw [if_neg h1]
      by_cases h2 : idx % width = sx ∧ sy ≤ idx / width ∧ idx / width < sy + (ey - sy)
      · rw [if_pos h2, if_pos (by omega :
          sx ≤ idx % width ∧ idx % width < sx + (m + 1) ∧ sy ≤ idx / width ∧ idx / width < ey),
          h2.1]
      · rw [if_neg h2,
          if_neg (by omega :
            ¬(sx ≤ idx % width ∧ idx % width < sx + (m + 1) ∧ sy ≤ idx / width ∧
              idx / width < ey))]

lemma fillRect_apply (width sx ex sy ey : ℕ) (g : ℕ → ℕ → ℚ)
    (hex : ex ≤ width) (hsx : sx ≤ ex) (b : ℕ → ℚ) (idx : ℕ) :
    fillRect width sx ex sy ey g b idx =
      if sx ≤ idx % width ∧ idx % width < ex ∧ sy ≤ idx / width ∧ idx / width < ey then
        g (idx % width) (idx / width)
      else b idx := by
  unfold fillRect
  rw [fillRows_apply width sy ey g (ex - sx) sx (by omega) b idx]
  by_cases h : sx ≤ idx % width ∧ idx % width < sx + (ex - sx) ∧ sy ≤ idx / width ∧
      idx / width < ey
  · rw [if_pos h, if_pos (by omega)]
  · rw [if_neg h, if_neg (by omega)]

lemma applyCompletion_apply (f : ℕ → ℕ → ℚ) (side wStep hStep width : ℕ)
    (hw : width = side * wStep) (t : ℕ × ℕ) (ht1 : t.1 < side)
    (master : ℕ → ℚ) (idx : ℕ) :
    applyCompletion f width wStep hStep master t idx =
      if pixInTile wStep hStep t (idx % width, idx / width) then f (idx % width) (idx / width)
      else master idx := by
  have hex : (t.1 + 1) * wStep ≤ width := by
    rw [hw]
    exact Nat.mul_le_mul_right _ (by omega)
  have hsx : t.1 * wStep ≤ (t.1 + 1) * wStep := Nat.mul_le_mul_right _ (by omega)
  unfold applyCompletion putRawData
  rw [fillRect_apply _ _ _ _ _ _ hex hsx]
  unfold pixInTile
  by_cases h : t.1 * wStep ≤ idx % width ∧ idx % width < (t.1 + 1) * wStep ∧
      t.2 * hStep ≤ idx / width ∧ idx / width < (t.2 + 1) * hStep
  · have hwidth : 0 < width := by
      have := h.2.1
      omega
    have hmlt : idx % width < width := Nat.mod_lt _ hwidth
    rw [if_pos h, if_pos h]
    unfold workerRawOutput generateRawTile
    rw [fillRect_apply _ _ _ _ _ _ hex hsx]
    have hjm : (idx / width * width + idx % width) % width = idx % width := by
      rw [mul_comm, Nat.mul_add_mod, Nat.mod_eq_of_lt hmlt]
    have hjd : (idx / width * width + idx % width) / width = idx / width := by
      rw [mul_comm, Nat.mul_add_div hwidth, Nat.div_eq_of_lt hmlt]
      omega
    rw [hjm, hjd, if_pos h]
  · rw [if_neg h, if_neg h]

lemma tileList_mem (side : ℕ) (t : ℕ × ℕ) :
    t ∈ tileList side ↔ t.1 < side ∧ t.2 < side := by
  unfold tileList
  constructor
  · intro h
    rw [List.mem_flatMap] at h
    obtain ⟨a, ha, hb⟩ := h
    rw [List.mem_map] at hb
    obtain ⟨b, hb, rfl⟩ := hb
    exact ⟨by simpa using List.mem_range.mp ha, by simpa using List.mem_range.mp hb⟩
  · intro ⟨h1, h2⟩
    rw [List.mem_flatMap]
    exact ⟨t.1, List.mem_range.mpr h1,
      List.mem_map.mpr ⟨t.2, List.mem_range.mpr h2, by simp⟩⟩

lemma reassemble_apply (f : ℕ → ℕ → ℚ) (side wStep hStep width : ℕ)
    (hw : width = side * wStep) :
    ∀ (order : List (ℕ × ℕ)), (∀ t ∈ order, t.1 < side) →
    ∀ (master : ℕ → ℚ) (idx : ℕ),
    reassemble f width wStep hStep order master idx =
      if order.any (fun t => decide (pixInTile wStep hStep t (idx % width, idx / width))) then
        f (idx % width) (idx / width)
      else master idx := by
  intro order
  induction order with
  | nil =>
    intro _ master idx
    simp [reassemble]
  | cons t rest ih =>
    intro hmem master idx
    unfold reassemble
    simp only [List.foldl_cons]
    have hrest : ∀ t' ∈ rest, t'.1 < side := fun t' ht' => hmem t' (List.mem_cons_of_mem _ ht')
    have := ih hrest (applyCompletion f width wStep hStep master t) idx
    unfold reassemble at this
    rw [this, applyCompletion_apply f side wStep hStep width hw t (hmem t (List.mem_cons_self t rest))]
    simp only [List.any_cons]
    by_cases h1 : pixInTile wStep hStep t (idx % width, idx / width)
    · simp [h1]
    · rw [if_neg h1]
      simp only [decide_eq_false h1, Bool.false_or]

/-- Claim C9: with the image width and height equal to gridSide times the
tile steps, the dispatched tiles are pairwise disjoint, every pixel lies in
exactly one tile, and reassembling the master raw buffer by folding the
completion handler over the tile completions in any order (any permutation
of the dispatch list) produces the same buffer. -/
theorem tiles_partition_and_order_independent (side wStep hStep width : ℕ)
    (hw : width = side * wStep) :
    (∀ t1 t2, t1 ∈ tileList side → t2 ∈ tileList side → t1 ≠ t2 →
      ∀ p, ¬(pixInTile wStep hStep t1 p ∧ pixInTile wStep hStep t2 p)) ∧
    (∀ p : ℕ × ℕ, p.1 < side * wStep → p.2 < side * hStep →
      ((p.1 / wStep, p.2 / hStep) ∈ tileList side ∧
        pixInTile wStep hStep (p.1 / wStep, p.2 / hStep) p ∧
        ∀ t, t ∈ tileList side → pixInTile wStep hStep t p →
          t = (p.1 / wStep, p.2 / hStep))) ∧
    (∀ (f : ℕ → ℕ → ℚ) (master : ℕ → ℚ) (order : List (ℕ × ℕ)),
      order.Perm (tileList side) →
      reassemble f width wStep hStep order master =
        reassemble f width wStep hStep (tileList side) master) := by
  refine ⟨?_, ?_, ?_⟩
  · intro t1 t2 _ _ hne p hp
    obtain ⟨hp1, hp2⟩ := hp
    unfold pixInTile at hp1 hp2
    apply hne
    have e1 : p.1 / wStep = t1.1 := Nat.div_eq_of_lt_le hp1.1 hp1.2.1
    have e2 : p.1 / wStep = t2.1 := Nat.div_eq_of_lt_le hp2.1 hp2.2.1
    have e3 : p.2 / hStep = t1.2 := Nat.div_eq_of_lt_le hp1.2.2.1 hp1.2.2.2
    have e4 : p.2 / hStep = t2.2 := Nat.div_eq_of_lt_le hp2.2.2.1 hp2.2.2.2
    exact Prod.ext (by omega) (by omega)
  · intro p h1 h2
    have hpw : 0 < side * wStep := by omega
    have hph : 0 < side * hStep := by omega
    have hws : 0 < wStep := by
      rcases Nat.eq_zero_or_pos wStep with h | h
      · rw [h, mul_zero] at hpw
        omega
      · exact h
    have hhs : 0 < hStep := by
      rcases Nat.eq_zero_or_pos hStep with h | h
      · rw [h, mul_zero] at hph
        omega
      · exact h
    have hx : p.1 / wStep < side := (Nat.div_lt_iff_lt_mul hws).mpr h1
    have hy : p.2 / hStep < side := (Nat.div_lt_iff_lt_mul hhs).mpr h2
    refine ⟨(tileList_mem side _).mpr ⟨hx, hy⟩, ⟨?_, ?_, ?_, ?_⟩, ?_⟩
    · exact Nat.div_mul_le_self p.1 wStep
    · have := Nat.lt_mul_div_succ p.1 hws
      calc p.1 < wStep * (p.1 / wStep + 1) := this
        _ = (p.1 / wStep + 1) * wStep := by ring
    · exact Nat.div_mul_le_self p.2 hStep
    · have := Nat.lt_mul_div_succ p.2 hhs
      calc p.2 < hStep * (p.2 / hStep + 1) := this
        _ = (p.2 / hStep + 1) * hStep := by ring
    · intro t _ hpix
      unfold pixInTile at hpix
      have e1 : p.1 / wStep = t.1 := Nat.div_eq_of_lt_le hpix.1 hpix.2.1
      have e2 : p.2 / hStep = t.2 := Nat.div_eq_of_lt_le hpix.2.2.1 hpix.2.2.2
      exact Prod.ext (by omega) (by omega)
  · intro f master order hperm
    funext idx
    have hbound : ∀ t ∈ order, t.1 < side := fun t ht =>
      ((tileList_mem side t).mp (hperm.mem_iff.mp ht)).1
    have hbound2 : ∀ t ∈ tileList side, t.1 < side := fun t ht =>
      ((tileList_mem side t).mp ht).1
    rw [reassemble_apply f side wStep hStep width hw order hbound master idx,
      reassemble_apply f side wStep hStep width hw (tileList side) hbound2 master idx]
    have hany : order.any
          (fun t => decide (pixInTile wStep hStep t (idx % width, idx / width))) =
        (tileList side).any
          (fun t => decide (pixInTile wStep hStep t (idx % width, idx / width))) := by
      rw [Bool.eq_iff_iff, List.any_eq_true, List.any_eq_true]
      constructor
      · rintro ⟨t, ht, hp⟩
        exact ⟨t, hperm.mem_iff.mp ht, hp⟩
      · rintro ⟨t, ht, hp⟩
        exact ⟨t, hperm.mem_iff.mpr ht, hp⟩
    rw [hany]

/-- Claim C9, witness: for a 4 by 4 image cut into a 2 by 2 grid,
completing the four tiles in reverse dispatch order reassembles the same
buffer as the dispatch order. -/
theorem tiles_partition_and_order_independent_witness :
    ([(1, 1), (1, 0), (0, 1), (0, 0)] : List (ℕ × ℕ)).Perm (tileList 2) ∧
    reassemble (fun x y => (x : ℚ) + 10 * y) 4 2 2 [(1, 1), (1, 0), (0, 1), (0, 0)]
        (fun _ => 0) =
      reassemble (fun x y => (x : ℚ) + 10 * y) 4 2 2 (tileList 2) (fun _ => 0) :=
  ⟨by decide,
    (tiles_partition_and_order_independent 2 2 2 4 rfl).2.2 _ _ _ (by decide)⟩

/-! ### Claim C10: editor invariant under split and remove -/

lemma renumberThumbs_length (k : ℕ) (l : List UIMultiRangeThumb) :
    (renumberThumbsFrom k l).length = l.length :=
  List.length_mapIdx

lemma renumberSegments_length (k : ℕ) (l : List UIMultiRangeSegment) :
    (renumberSegmentsFrom k l).length = l.length :=
  List.length_mapIdx

lemma renumberThumbs_index (k : ℕ) (l : List UIMultiRangeThumb) (i : ℕ) (h : i < l.length) :
    ((renumberThumbsFrom k l).getD i default).index =
      if k ≤ i then i else (l.getD i default).index := by
  unfold renumberThumbsFrom
  rw [List.getD_eq_getElem _ _ (by rw [List.length_mapIdx]; exact h), List.getElem_mapIdx]
  by_cases hk : k ≤ i
  · simp [hk]
  · rw [if_neg hk, if_neg hk, List.getD_eq_getElem _ _ h]

lemma renumberSegments_index (k : ℕ) (l : List UIMultiRangeSegment) (i : ℕ)
    (h : i < l.length) :
    ((renumberSegmentsFrom k l).getD i default).index =
      if k ≤ i then i else (l.getD i default).index := by
  unfold renumberSegmentsFrom
  rw [List.getD_eq_getElem _ _ (by rw [List.length_mapIdx]; exact h), List.getElem_mapIdx]
  by_cases hk : k ≤ i
  · simp [hk]
  · rw [if_neg hk, if_neg hk, List.getD_eq_getElem _ _ h]

lemma append_one_thumbs_index (l : List UIMultiRangeThumb) (a : UIMultiRangeThumb)
    (hl : ∀ i, i < l.length → (l.getD i default).index = i) (ha : a.index = l.length) :
    ∀ i, i < (l ++ [a]).length → ((l ++ [a]).getD i default).index = i := by
  intro i hi
  rw [List.length_append, List.length_singleton] at hi
  rw [List.getD_eq_getElem _ _ (by rw [List.length_append, List.length_singleton]; omega)]
  by_cases h : i < l.length
  · rw [List.getElem_append_left h, ← List.getD_eq_getElem _ default h]
    exact hl i h
  · have hil : i = l.length := by omega
    subst hil
    rw [List.getElem_append_right (le_refl _)]
    simpa using ha

lemma append_one_segments_index (l : List UIMultiRangeSegment) (a : UIMultiRangeSegment)
    (hl : ∀ i, i < l.length → (l.getD i default).index = i) (ha : a.index = l.length) :
    ∀ i, i < (l ++ [a]).length → ((l ++ [a]).getD i default).index = i := by
  intro i hi
  rw [List.length_append, List.length_singleton] at hi
  rw [List.getD_eq_getElem _ _ (by rw [List.length_append, List.length_singleton]; omega)]
  by_cases h : i < l.length
  · rw [List.getElem_append_left h, ← List.getD_eq_getElem _ default h]
    exact hl i h
  · have hil : i = l.length := by omega
    subst hil
    rw [List.getElem_append_right (le_refl _)]
    simpa using ha

/-- Claim C10: provided the editor invariant holds and the segment argument
is a segment of the model (its index within range), splitSegment adds
exactly one thumb and one segment and removeSegment removes exactly one of
each, both reestablishing thumbs.length + 1 = segments.length and the
contiguous zero-based indices; removeSegment with a single segment left
refuses and returns the state unchanged. -/
theorem multirange_edit_invariant (mr : UIMultiRange) (segment : UIMultiRangeSegment)
    (hinv : mr.Inv) (hidx : segment.index < mr.segments.length) :
    ((mr.splitSegment segment).Inv ∧
      (mr.splitSegment segment).segments.length = mr.segments.length + 1 ∧
      (mr.splitSegment segment).thumbs.length = mr.thumbs.length + 1) ∧
    ((mr.removeSegment segment).Inv ∧
      (mr.segments.length = 1 → mr.removeSegment segment = mr) ∧
      (1 < mr.segments.length →
        (mr.removeSegment segment).segments.length = mr.segments.length - 1 ∧
        (mr.removeSegment segment).thumbs.length = mr.thumbs.length - 1)) := by
  obtain ⟨hlen, hth, hseg⟩ := hinv
  constructor
  · -- splitSegment
    unfold UIMultiRange.splitSegment
    by_cases h1 : mr.segments.length = 1
    · rw [if_pos h1]
      have hth0 : mr.thumbs = [] := List.length_eq_zero.mp (by omega)
      refine ⟨⟨?_, ?_, ?_⟩, ?_, ?_⟩
      · simp [hth0, h1]
      · intro i hi
        rw [hth0] at hi ⊢
        simp at hi
        match i, hi with
        | 0, _ => rfl
      · intro i hi
        refine append_one_segments_index mr.segments _ hseg (by simp [h1]) i ?_
        simpa using hi
      · simp
      · simp
    · rw [if_neg h1]
      by_cases h2 : segment.index = 0
      · rw [if_pos h2]
        refine ⟨⟨?_, ?_, ?_⟩, ?_, ?_⟩
        · simp [renumberThumbs_length, renumberSegments_length]
          omega
        · intro i hi
          rw [renumberThumbs_length] at hi
          rw [renumberThumbs_index _ _ _ hi]
          by_cases hk : 1 ≤ i
          · rw [if_pos hk]
          · have hi0 : i = 0 := by omega
            subst hi0
            rw [if_neg hk]
            rfl
        · intro i hi
          rw [renumberSegments_length] at hi
          rw [renumberSegments_index _ _ _ hi]
          by_cases hk : 1 ≤ i
          · rw [if_pos hk]
          · have hi0 : i = 0 := by omega
            subst hi0
            rw [if_neg hk]
            rfl
        · simp [renumberSegments_length]
        · simp [renumberThumbs_length]
      · rw [if_neg h2]
        by_cases h3 : segment.index = mr.thumbs.length
        · rw [if_pos h3]
          refine ⟨⟨?_, ?_, ?_⟩, ?_, ?_⟩
          · simp
            omega
          · intro i hi
            refine append_one_thumbs_index mr.thumbs _ hth (by simp [h3]) i ?_
            simpa using hi
          · intro i hi
            refine append_one_segments_index mr.segments _ hseg (by simp; omega) i ?_
            simpa using hi
          · simp
          · simp
        · rw [if_neg h3]
          have hsi : segment.index < mr.thumbs.length := by omega
          have hsi2 : segment.index < mr.segments.length := by omega
          refine ⟨⟨?_, ?_, ?_⟩, ?_, ?_⟩
          · rw [renumberThumbs_length, renumberSegments_length,
              List.length_insertIdx _ _ (by omega), List.length_insertIdx _ _ (by omega)]
            omega
          · intro i hi
            rw [renumberThumbs_length, List.length_insertIdx _ _ (by omega)] at hi
            rw [renumberThumbs_index _ _ _ (by rw [List.length_insertIdx _ _ (by omega)]; omega)]
            by_cases hk : segment.index ≤ i
            · rw [if_pos hk]
            · rw [if_neg hk]
              have hil : i < mr.thumbs.length := by omega
              rw [List.getD_eq_getElem _ _ (by rw [List.length_insertIdx _ _ (by omega)]; omega),
                List.getElem_insertIdx_of_lt _ _ _ _ (by omega) hil,
                ← List.getD_eq_getElem _ default hil]
              exact hth i hil
          · intro i hi
            rw [renumberSegments_length, List.length_insertIdx _ _ (by omega)] at hi
            rw [renumberSegments_index _ _ _
              (by rw [List.length_insertIdx _ _ (by omega)]; omega)]
            by_cases hk : segment.index ≤ i
            · rw [if_pos hk]
            · rw [if_neg hk]
              have hil : i < mr.segments.length := by omega
              rw [List.getD_eq_getElem _ _ (by rw [List.length_insertIdx _ _ (by omega)]; omega),
                List.getElem_insertIdx_of_lt _ _ _ _ (by omega) hil,
                ← List.getD_eq_getElem _ default hil]
              exact hseg i hil
          · show (renumberSegmentsFrom _ _).length = _
            rw [renumberSegments_length,
              List.length_insertIdx segment.index mr.segments (by omega)]
          · show (renumberThumbsFrom _ _).length = _
            rw [renumberThumbs_length,
              List.length_insertIdx segment.index mr.thumbs (by omega)]
  · -- removeSegment
    unfold UIMultiRange.removeSegment
    by_cases h1 : 1 < mr.segments.length
    · rw [if_pos h1]
      have hclen : ∀ (th : List UIMultiRangeThumb),
          (∀ i, i < (renumberThumbsFrom 0 th).length →
            ((renumberThumbsFrom 0 th).getD i default).index = i) := by
        intro th i hi
        rw [renumberThumbs_length] at hi
        rw [renumberThumbs_index _ _ _ hi, if_pos (Nat.zero_le i)]
      have hclen2 : ∀ (sg : List UIMultiRangeSegment),
          (∀ i, i < (renumberSegmentsFrom 0 sg).length →
            ((renumberSegmentsFrom 0 sg).getD i default).index = i) := by
        intro sg i hi
        rw [renumberSegments_length] at hi
        rw [renumberSegments_index _ _ _ hi, if_pos (Nat.zero_le i)]
      by_cases h2 : segment.index = mr.segments.length - 1
      · rw [if_pos h2]
        refine ⟨⟨?_, hclen _, hclen2 _⟩, by omega, fun _ => ⟨?_, ?_⟩⟩
        · rw [renumberThumbs_length, renumberSegments_length, List.length_eraseIdx,
            List.length_eraseIdx]
          rw [if_pos (by omega), if_pos (by omega)]
          omega
        · show (renumberSegmentsFrom _ _).length = _
          rw [renumberSegments_length, List.length_eraseIdx,
            if_pos (by omega : segment.index < mr.segments.length)]
        · show (renumberThumbsFrom _ _).length = _
          rw [renumberThumbs_length, List.length_eraseIdx,
            if_pos (by omega : segment.index - 1 < mr.thumbs.length)]
      · rw [if_neg h2]
        by_cases h3 : 1 ≤ segment.index
        · rw [if_pos h3]
          refine ⟨⟨?_, ?_, hclen2 _⟩, by omega, fun _ => ⟨?_, ?_⟩⟩
          · rw [List.length_mapIdx, renumberThumbs_length, renumberSegments_length,
              List.length_eraseIdx, List.length_eraseIdx]
            rw [if_pos (by omega), if_pos (by omega)]
            omega
          · intro i hi
            rw [List.length_mapIdx, renumberThumbs_length] at hi
            rw [List.getD_eq_getElem _ _
                (by rw [List.length_mapIdx, renumberThumbs_length]; exact hi),
              List.getElem_mapIdx]
            by_cases hv : i = segment.index - 1
            · rw [if_pos hv]
              have := hclen _ i
                (by rw [renumberThumbs_length]; exact hi)
              rw [List.getD_eq_getElem _ default
                (by rw [renumberThumbs_length]; exact hi)] at this
              simpa using this
            · rw [if_neg hv]
              have := hclen _ i
                (by rw [renumberThumbs_length]; exact hi)
              rw [List.getD_eq_getElem _ default
                (by rw [renumberThumbs_length]; exact hi)] at this
              exact this
          · show (renumberSegmentsFrom _ _).length = _
            rw [renumberSegments_length, List.length_eraseIdx,
              if_pos (by omega : segment.index < mr.segments.length)]
          · show (List.mapIdx _ _).length = _
            rw [List.length_mapIdx, renumberThumbs_length, List.length_eraseIdx,
              if_pos (by omega : segment.index - 1 < mr.thumbs.length)]
        · rw [if_neg h3]
          refine ⟨⟨?_, hclen _, hclen2 _⟩, by omega, fun _ => ⟨?_, ?_⟩⟩
          · rw [renumberThumbs_length, renumberSegments_length, List.length_eraseIdx,
              List.length_eraseIdx]
            rw [if_pos (by omega), if_pos (by omega)]
            omega
          · show (renumberSegmentsFrom _ _).length = _
            rw [renumberSegments_length, List.length_eraseIdx,
              if_pos (by omega : (0 : ℕ) < mr.segments.length)]
          · show (renumberThumbsFrom _ _).length = _
            rw [renumberThumbs_length, List.length_eraseIdx,
              if_pos (by omega : (0 : ℕ) < mr.thumbs.length)]
    · rw [if_neg h1]
      exact ⟨⟨hlen, hth, hseg⟩, fun _ => rfl, fun hc => absurd hc h1⟩

/-- Claim C10, witness: the invariant facts applied to a concrete two
segment editor and its first segment. -/
theorem multirange_edit_invariant_witness :
    (UIMultiRange.splitSegment
      { min := 0, max := 255,
        thumbs := [{ index := 0, value := 128 }],
        segments := [{ index := 0, editable := true, color := "#000000", mode := "Solid" },
                     { index := 1, editable := true, color := "#ffffff", mode := "Solid" }] }
      { index := 0, editable := true, color := "#000000", mode := "Solid" }).segments.length = 3 :=
  by
  have h := (multirange_edit_invariant
    { min := 0, max := 255,
      thumbs := [{ index := 0, value := 128 }],
      segments := [{ index := 0, editable := true, color := "#000000", mode := "Solid" },
                   { index := 1, editable := true, color := "#ffffff", mode := "Solid" }] }
    { index := 0, editable := true, color := "#000000", mode := "Solid" }
    ⟨by decide, by decide, by decide⟩ (by decide)).1.2.1
  rw [h]
  rfl

end Noisegen
